import Mathlib

/-!
# Grocery Tracker (`Project3cs210/Source.cpp`)

A shallow embedding of the `GroceryTracker` class: the frequency table
(`std::map<string, int> itemCount`), `toLower`, `loadRecords`,
`lookupItemFrequency`, `displayFrequencies`, `displayHistogram`, `backupData` and
`run`, and of `main`, together with the small part of the C++ standard library they
rely on
(`std::string` ordering, `::tolower` in the "C" locale, `std::map` access,
and formatted stream insertion with `setw` / `left`).

Conventions of the embedding
* a `std::string` is the list of its bytes (`unsigned char` values as `Nat`);
* an `int` is an `Int`; the one arithmetic operation of the program, `++` on a
  stored count, is reduced to the 32-bit two's complement range (`wrapInt`);
* an output stream is its written bytes plus the two formatting fields the
  program touches (`width`, set by `setw`, and the `left` adjust flag);
* the input file is `none` when it cannot be opened and otherwise the list of
  lines that successive `getline` calls return;
* `cin` is the list of what the passes of the menu loop read, one `MenuInput` per
  pass, every read succeeding (an option read is a value of `int`, see `fitsInt`);
  when the list is used up the loop waits in `cin >> option`;
* the member functions declared `const` return their output only; `loadRecords` and
  the menu loop return the tracker as well.
-/

namespace Grocery

/-! ## Strings and characters -/

/-- A `std::string`, as the list of its bytes. -/
abbrev Str := List Nat

/-- Bytes of an ASCII literal. -/
def bytes (s : String) : Str := s.toList.map Char.toNat

/-- The `operator<` of `std::string`: byte-wise lexicographic comparison, a proper
prefix being smaller. -/
def strLt : Str → Str → Bool
  | [], [] => false
  | [], _ :: _ => true
  | _ :: _, [] => false
  | x :: xs, y :: ys => if x < y then true else if y < x then false else strLt xs ys

/-- The C function `::tolower` in the "C" locale on an `unsigned char` value: the 26
upper-case ASCII letters map to their lower-case counterparts, every other value to
itself. -/
def tolower (c : Nat) : Nat := if 65 ≤ c ∧ c ≤ 90 then c + 32 else c

/-- The algorithm `std::transform(first, last, first, op)`: `op` applied in place, front
to back. -/
def transform (op : Nat → Nat) : Str → Str
  | [] => []
  | c :: cs => op c :: transform op cs

/-- Method `GroceryTracker::toLower` (Source.cpp:22-26). -/
def toLower (str : Str) : Str :=
  let lowerStr := str
  transform tolower lowerStr

/-! ## `int` -/

/-- The constant `INT_MAX` for a 32-bit `int`. -/
def INT_MAX : Int := 2147483647

/-- The constant `INT_MIN` for a 32-bit `int`. -/
def INT_MIN : Int := -2147483648

/-- Reduction of an integer to the 32-bit two's complement range. -/
def wrapInt (x : Int) : Int := (x + 2147483648) % 4294967296 - 2147483648

/-! ## `std::map<string, int>` -/

/-- The entries of a `std::map<string, int>` in iteration order. -/
abbrev Table := List (Str × Int)

/-- The class invariant of `std::map`: keys strictly ascending in iteration order. -/
def Table.WF (t : Table) : Prop := List.Pairwise (fun a b => strLt a.1 b.1 = true) t

instance (t : Table) : Decidable t.WF := by
  unfold Table.WF
  infer_instance

/-- The keys in iteration order. -/
def Table.keys (t : Table) : List Str := t.map Prod.fst

/-- Member `std::map::count`: 1 when the key is present, 0 otherwise. -/
def mapCount : Table → Str → Nat
  | [], _ => 0
  | (k', _) :: rest, k => if k' = k then 1 else mapCount rest k

/-- Member `std::map::at`: the mapped value; `none` stands for the `std::out_of_range`
exception thrown on a missing key. -/
def mapAt : Table → Str → Option Int
  | [], _ => none
  | (k', v) :: rest, k => if k' = k then some v else mapAt rest k

/-- Member `std::map::operator[]`, the effect on the map: a missing key is inserted at its
sorted position with a value-initialised (zero) count; a present key leaves the map
as it is. -/
def mapSubscript : Table → Str → Table
  | [], k => [(k, 0)]
  | (k', v) :: rest, k =>
    if strLt k k' then (k, 0) :: (k', v) :: rest
    else if strLt k' k then (k', v) :: mapSubscript rest k
    else (k', v) :: rest

/-- The `++` applied to the `int` that `operator[]` refers to. -/
def mapIncrement : Table → Str → Table
  | [], _ => []
  | (k', v) :: rest, k =>
    if k' = k then (k', wrapInt (v + 1)) :: rest else (k', v) :: mapIncrement rest k

/-! ## Streams -/

/-- An output stream: the bytes written so far, the field width (`setw`) and
whether `ios_base::left` is set. -/
structure OStream where
  buf : Str
  width : Nat
  leftAdjust : Bool
deriving DecidableEq, Repr

/-- A just-opened `ofstream`, or `cout` at program start. -/
def OStream.fresh : OStream := ⟨[], 0, false⟩

/-- The manipulator `os << setw(n)`. -/
def setw (n : Nat) (os : OStream) : OStream := { os with width := n }

/-- The manipulator `os << left`. -/
def left (os : OStream) : OStream := { os with leftAdjust := true }

/-- Padding of a formatted insertion: fill characters (spaces) up to the field
width, after the text when `left` is set and before it otherwise. -/
def padded (os : OStream) (s : Str) : Str :=
  let fill := List.replicate (os.width - s.length) 32
  if os.leftAdjust then s ++ fill else fill ++ s

/-- The insertion `os << s` of a string: the padded text is written and the width resets
to 0. -/
def putStr (s : Str) (os : OStream) : OStream :=
  { os with buf := os.buf ++ padded os s, width := 0 }

/-- Decimal digits of a natural number, most significant first (`fuel` bounds the
number of digits produced). -/
def decimalDigits : Nat → Nat → Str
  | 0, _ => []
  | fuel + 1, n => if n < 10 then [48 + n] else decimalDigits fuel (n / 10) ++ [48 + n % 10]

/-- The text `num_put` produces for an `int` under the default flags: decimal, a
minus sign for negative values, no plus sign. -/
def decimal (i : Int) : Str :=
  if i < 0 then 45 :: decimalDigits (i.natAbs + 1) i.natAbs
  else decimalDigits (i.natAbs + 1) i.natAbs

/-- The insertion `os << i` of an `int`. -/
def putInt (i : Int) (os : OStream) : OStream := putStr (decimal i) os

/-- The manipulator `os << endl`: a newline is put unformatted (and the stream flushed). -/
def endl (os : OStream) : OStream := { os with buf := os.buf ++ [10] }

/-! ## The class -/

/-- The data members of `GroceryTracker` (Source.cpp:16-19). -/
structure GroceryTracker where
  itemCount : Table
  backupFileName : Str
deriving DecidableEq, Repr

namespace GroceryTracker

/-- The constructor (Source.cpp:30): an empty map and the backup file name. -/
def new : GroceryTracker := ⟨[], bytes "frequency.dat"⟩

/-- The `while (getline(inFile, line))` loop of `loadRecords` (Source.cpp:41-47),
one iteration per line of the file. -/
def readLoop : List Str → Table → Table
  | [], itemCount => itemCount
  | line :: rest, itemCount =>
    if line ≠ [] then
      let item := toLower line
      readLoop rest (mapIncrement (mapSubscript itemCount item) item)
    else readLoop rest itemCount

/-- Method `GroceryTracker::loadRecords` (Source.cpp:34-49). `inFile` is `none` when the
file cannot be opened. Returns the tracker and `cout`. -/
def loadRecords (g : GroceryTracker) (fileName : Str) (inFile : Option (List Str))
    (cout : OStream) : GroceryTracker × OStream :=
  match inFile with
  | none => (g, endl (putStr fileName (putStr (bytes "Error: Could not open ") cout)))
  | some lines => ({ g with itemCount := readLoop lines g.itemCount }, cout)

/-- The body of the range-`for` of `backupData` (Source.cpp:62): one entry written to
`outFile`. -/
def backupEntry (outFile : OStream) (entry : Str × Int) : OStream :=
  putStr (bytes "\n") (putInt entry.2 (putStr (bytes " : ")
    (putStr entry.1 (left (setw 20 outFile)))))

/-- Method `GroceryTracker::backupData` (Source.cpp:53-66). `opens` tells whether the
`ofstream` on `backupFileName` could be opened. Returns the content of the backup file
(`none` when it was not created) and `cout`. -/
def backupData (g : GroceryTracker) (opens : Bool) (cout : OStream) : Option Str × OStream :=
  if !opens then
    (none, endl (putStr g.backupFileName
      (putStr (bytes "Error: Could not create backup file ") cout)))
  else
    let outFile := OStream.fresh
    let outFile := putStr (bytes "Grocery Tracker Backup Data\n") outFile
    let outFile := putStr (bytes "----------------------------\n") outFile
    let outFile := g.itemCount.foldl backupEntry outFile
    (some outFile.buf,
      putStr (bytes "\n") (putStr g.backupFileName
        (putStr (bytes "Data successfully backed up to ") cout)))

/-- The value of `frequency` in `lookupItemFrequency` (Source.cpp:75); `none` stands for
the exception `at` throws on a missing key. -/
def frequency (itemCount : Table) (query : Str) : Option Int :=
  if mapCount itemCount query ≠ 0 then mapAt itemCount query else some 0

/-- Method `GroceryTracker::lookupItemFrequency` (Source.cpp:70-77). `line` is what
`getline(cin, query)` reads. Returns the computed `frequency` and `cout`, or `none` if an
exception escapes. -/
def lookupItemFrequency (g : GroceryTracker) (line : Str) (cout : OStream) :
    Option (Int × OStream) :=
  let cout := putStr (bytes "Enter item name to search: ") cout
  let query := line
  let query := toLower query
  match frequency g.itemCount query with
  | none => none
  | some freq =>
    some (freq, putStr (bytes "\n") (putInt freq (putStr (bytes "\": ")
      (putStr query (putStr (bytes "Frequency for \"") cout)))))

/-- The body of the range-`for` of `displayFrequencies` (Source.cpp:84). -/
def frequencyEntry (cout : OStream) (entry : Str × Int) : OStream :=
  putStr (bytes "\n") (putInt entry.2 (putStr (bytes " : ")
    (putStr entry.1 (left (setw 20 cout)))))

/-- Method `GroceryTracker::displayFrequencies` (Source.cpp:80-86). -/
def displayFrequencies (g : GroceryTracker) (cout : OStream) : OStream :=
  let cout := putStr (bytes "\nItem Frequencies:\n") cout
  let cout := putStr (bytes "-----------------\n") cout
  g.itemCount.foldl frequencyEntry cout

/-- The inner loop of `displayHistogram` (Source.cpp:94-96),
`for (int i = 0; i < entry.second; ++i) cout << "*";`, from the current value of `i`.
`fuel` bounds the number of iterations; `i` stays below `second`, so `++i` cannot
overflow. -/
def starLoop (second : Int) : Nat → Int → OStream → OStream
  | 0, _, cout => cout
  | fuel + 1, i, cout =>
    if i < second then starLoop second fuel (i + 1) (putStr (bytes "*") cout) else cout

/-- The body of the range-`for` of `displayHistogram` (Source.cpp:93-97). The inner loop
gets as many steps as it can take (`entry.second` of them when that is positive). -/
def histogramEntry (cout : OStream) (entry : Str × Int) : OStream :=
  let cout := putStr (bytes " ") (putStr entry.1 (left (setw 20 cout)))
  let cout := starLoop entry.2 entry.2.toNat 0 cout
  putStr (bytes ")\n") (putInt entry.2 (putStr (bytes " (") cout))

/-- Method `GroceryTracker::displayHistogram` (Source.cpp:89-99). -/
def displayHistogram (g : GroceryTracker) (cout : OStream) : OStream :=
  let cout := putStr (bytes "\nFrequency Histogram:\n") cout
  let cout := putStr (bytes "--------------------\n") cout
  g.itemCount.foldl histogramEntry cout

end GroceryTracker

/-! ## The menu loop and the program -/

/-- The member functions that `run` calls; the embedding of `run` records each call it
makes, in order. -/
inductive Call where
  | lookupItemFrequency
  | displayFrequencies
  | displayHistogram
  | backupData
deriving DecidableEq, Repr

/-- The values an `int` can hold, `INT_MIN` to `INT_MAX`: the integers that
`cin >> option` reads into `int option` with the stream staying good. On an integer
outside this range the extraction fails instead (`failbit` is set and no later read
succeeds), so such an integer is never an option read. -/
def fitsInt (n : Int) : Prop := INT_MIN ≤ n ∧ n ≤ INT_MAX

instance (n : Int) : Decidable (fitsInt n) := by
  unfold fitsInt
  infer_instance

/-- What `cin` delivers to one pass of the menu loop, every read succeeding: the integer
that `cin >> option` reads, the line that `getline(cin, query)` reads if the pass looks
an item up, and the character that `cin >> confirm` reads if the pass asks to confirm
the exit. The field `option` stands for a value of type `int` (`fitsInt`); a run in
which a read fails (an integer outside `int`, text that is no integer, the end of the
input) is not described by this input. -/
structure MenuInput where
  option : Int
  query : Str
  confirm : Nat
deriving DecidableEq, Repr

/-- The state the menu loop works on: the tracker (`*this`), `cout`, the content of the
backup file (`none` while there is no such file) and the calls made so far. -/
structure World where
  tracker : GroceryTracker
  cout : OStream
  backupFile : Option Str
  calls : List Call
deriving DecidableEq, Repr

/-- Where a run of the menu loop stands once the given input is used: the loop was left
through `while (option != 4)`, or it has printed the menu and waits in `cin >> option`
for input that has not come, or an exception left `lookupItemFrequency`. -/
inductive RunResult where
  | terminated (w : World)
  | awaitingInput (w : World)
  | threw
deriving DecidableEq, Repr

namespace GroceryTracker

/-- The menu text at the head of the loop body of `run` (Source.cpp:105-110). -/
def printMenu (cout : OStream) : OStream :=
  putStr (bytes "Choose an option (1-4): ")
    (putStr (bytes "4. Exit\n")
      (putStr (bytes "3. Display frequency histogram\n")
        (putStr (bytes "2. Display all item frequencies\n")
          (putStr (bytes "1. Look up an item frequency\n")
            (putStr (bytes "\nMenu Options:\n") cout)))))

/-- The block of `case 4` in `run` (Source.cpp:126-138). `confirm` is the character
read; `cout` is the stream after the menu. Returns the state and the value of `option`
after the block. -/
def confirmExit (sinkOpens : Bool) (confirm : Nat) (w : World) (cout : OStream) :
    World × Int :=
  let cout := putStr (bytes "Are you sure you want to exit? (y/n): ") cout
  if tolower confirm = 121 then
    let r := w.tracker.backupData sinkOpens cout
    let cout := putStr (bytes "Exiting program. Goodbye!\n") r.2
    ({ w with
        cout := cout
        backupFile := match r.1 with
          | some file => some file
          | none => w.backupFile
        calls := w.calls ++ [Call.backupData] }, 4)
  else
    ({ w with cout := cout }, 0)

/-- One pass through the body of the `do ... while` of `run` (Source.cpp:105-143):
the menu, the read of `option` and the `switch`. Returns the state and the value of
`option` at the loop test, or `none` if an exception leaves the pass. -/
def menuPass (sinkOpens : Bool) (inp : MenuInput) (w : World) : Option (World × Int) :=
  let cout := printMenu w.cout
  let option := inp.option
  if option = 1 then
    match w.tracker.lookupItemFrequency inp.query cout with
    | none => none
    | some r =>
      some ({ w with cout := r.2, calls := w.calls ++ [Call.lookupItemFrequency] }, option)
  else if option = 2 then
    some ({ w with
      cout := w.tracker.displayFrequencies cout
      calls := w.calls ++ [Call.displayFrequencies] }, option)
  else if option = 3 then
    some ({ w with
      cout := w.tracker.displayHistogram cout
      calls := w.calls ++ [Call.displayHistogram] }, option)
  else if option = 4 then
    some (confirmExit sinkOpens inp.confirm w cout)
  else
    some ({ w with cout := putStr (bytes "Invalid option. Please try again.\n") cout }, option)

/-- The `do ... while (option != 4)` of `run` (Source.cpp:104-144) over the input that
`cin` delivers, one element per pass. -/
def runLoop (sinkOpens : Bool) : List MenuInput → World → RunResult
  | [], w => RunResult.awaitingInput { w with cout := printMenu w.cout }
  | inp :: rest, w =>
    match menuPass sinkOpens inp w with
    | none => RunResult.threw
    | some (w', option) =>
      if option ≠ 4 then runLoop sinkOpens rest w' else RunResult.terminated w'

/-- Method `GroceryTracker::run` (Source.cpp:102-145). `sinkOpens` tells whether the
backup file can be opened, `backupFile` is its content before the run. -/
def run (g : GroceryTracker) (sinkOpens : Bool) (cin : List MenuInput) (cout : OStream)
    (backupFile : Option Str) : RunResult :=
  runLoop sinkOpens cin ⟨g, cout, backupFile, []⟩

end GroceryTracker

/-- The function `main` (Source.cpp:149-155): a tracker is constructed, loaded from the
input file and run; `main` returns 0 once `run` returns. -/
def main (inFile : Option (List Str)) (sinkOpens : Bool) (backupFile : Option Str)
    (cin : List MenuInput) : RunResult :=
  let inputFile := bytes "CS210_Project_Three_Input_File.txt"
  let tracker := GroceryTracker.new
  let loaded := tracker.loadRecords inputFile inFile OStream.fresh
  loaded.1.run sinkOpens cin loaded.2 backupFile

/-! ## Vocabulary of the specification -/

/-- Number of non-empty lines whose lower-cased text is `k`. -/
def occurrences (k : Str) (lines : List Str) : Nat :=
  lines.countP (fun l => decide (l ≠ [] ∧ toLower l = k))

/-- Number of decimal digits of a natural number. -/
def numDigits (n : Nat) : Nat := Nat.log 10 n + 1

/-- The text of a field of minimum width 20 holding `name` left-justified. -/
def leftField (name : Str) : Str := name ++ List.replicate (20 - name.length) 32

/-- The line of the full listing for one entry, as the specification words it (4.1,
`listAll`): the name left-justified to a minimum width of 20, then " : ", then the
count. -/
def frequencyLine (name : Str) (count : Int) : Str :=
  leftField name ++ bytes " : " ++ decimal count

/-- The histogram line for one entry, as the specification words it (4.1, `histogram`):
the name left-justified to a minimum width of 20 and one space, a run of `count`
asterisks, then " (" + count + ")". -/
def histogramLine (name : Str) (count : Int) : Str :=
  leftField name ++ bytes " " ++ List.replicate count.toNat 42 ++ bytes " (" ++ decimal count
    ++ bytes ")"

/-- Modelled from the spec: whether a text begins with the separator " : " of a backup
line (section 8, round trip; the source has no reader of its backup file). -/
def startsWithSep : Str → Bool
  | 32 :: 58 :: 32 :: _ => true
  | _ => false

/-- Whether the separator " : " occurs somewhere in a text. -/
def containsSep : Str → Bool
  | [] => false
  | c :: cs => startsWithSep (c :: cs) || containsSep cs

/-- The sum of all stored counts of a table. -/
def sumCounts (t : Table) : Int := (t.map Prod.snd).sum

/-- Number of non-empty lines. -/
def nonEmptyLines (lines : List Str) : Nat := lines.countP (fun l => decide (l ≠ []))

/-- The stored count of a key as a lookup reports it: 0 for a missing key. -/
def countOf (t : Table) (k : Str) : Int := (mapAt t k).getD 0

/-- The menu as the specification prints it (section 6). -/
def menuText : Str :=
  bytes "\nMenu Options:\n"
    ++ bytes "1. Look up an item frequency\n"
    ++ bytes "2. Display all item frequencies\n"
    ++ bytes "3. Display frequency histogram\n"
    ++ bytes "4. Exit\n"
    ++ bytes "Choose an option (1-4): "

/-- A pass that confirms the exit: option 4 with the confirmation 'y' or 'Y'. -/
def confirmsExit (inp : MenuInput) : Prop :=
  inp.option = 4 ∧ (inp.confirm = 121 ∨ inp.confirm = 89)

instance (inp : MenuInput) : Decidable (confirmsExit inp) := by
  unfold confirmsExit
  infer_instance

/-- The operation the specification assigns to a pass (section 4.1, state machine): 1
looks up, 2 lists, 3 draws the histogram, a confirmed exit backs up, anything else runs
no operation. -/
def callsOf (inp : MenuInput) : List Call :=
  if inp.option = 1 then [Call.lookupItemFrequency]
  else if inp.option = 2 then [Call.displayFrequencies]
  else if inp.option = 3 then [Call.displayHistogram]
  else if confirmsExit inp then [Call.backupData]
  else []

/-! # Lemmas -/

/-! ## The string order is a strict total order -/

theorem strLt_irrefl (a : Str) : strLt a a = false := by
  induction a with
  | nil => rfl
  | cons x xs ih => simp [strLt, ih]

theorem strLt_trans : ∀ (a b c : Str), strLt a b = true → strLt b c = true → strLt a c = true
  | [], [], _, h, _ => by simp [strLt] at h
  | [], _ :: _, [], _, h => by simp [strLt] at h
  | [], _ :: _, _ :: _, _, _ => by simp [strLt]
  | _ :: _, [], _, h, _ => by simp [strLt] at h
  | _ :: _, _ :: _, [], _, h => by simp [strLt] at h
  | x :: xs, y :: ys, z :: zs, h1, h2 => by
    simp only [strLt] at h1 h2 ⊢
    by_cases hxy : x < y
    · by_cases hyz : y < z
      · have : x < z := by omega
        simp [this]
      · simp only [hyz, if_false] at h2
        by_cases hzy : z < y
        · simp [hzy] at h2
        · have : x < z := by omega
          simp [this]
    · simp only [hxy, if_false] at h1
      by_cases hyx : y < x
      · simp [hyx] at h1
      · simp only [hyx, if_false] at h1
        have hxy' : x = y := by omega
        subst hxy'
        by_cases hxz : x < z
        · simp [hxz]
        · simp only [hxz, if_false] at h2 ⊢
          by_cases hzx : z < x
          · simp [hzx] at h2
          · simp only [hzx, if_false] at h2 ⊢
            exact strLt_trans xs ys zs h1 h2

theorem strLt_connex : ∀ (a b : Str), strLt a b = false → strLt b a = false → a = b
  | [], [], _, _ => rfl
  | [], _ :: _, h, _ => by simp [strLt] at h
  | _ :: _, [], _, h => by simp [strLt] at h
  | x :: xs, y :: ys, h1, h2 => by
    simp only [strLt] at h1 h2
    by_cases hxy : x < y
    · simp [hxy] at h1
    · by_cases hyx : y < x
      · simp [hyx] at h2
      · simp only [hxy, hyx, if_false] at h1 h2
        have : x = y := by omega
        rw [this, strLt_connex xs ys h1 h2]

theorem strLt_ne {a b : Str} (h : strLt a b = true) : a ≠ b := by
  intro hab
  subst hab
  rw [strLt_irrefl] at h
  exact Bool.false_ne_true h

theorem strLt_asymm {a b : Str} (h : strLt a b = true) : strLt b a = false := by
  cases hba : strLt b a with
  | false => rfl
  | true =>
    have := strLt_trans a b a h hba
    rw [strLt_irrefl] at this
    exact this.symm

/-! ## `std::map` operations on well-formed tables -/

theorem wf_cons {e : Str × Int} {t : Table} :
    Table.WF (e :: t) ↔ (∀ e' ∈ t, strLt e.1 e'.1 = true) ∧ Table.WF t := by
  simp [Table.WF, List.pairwise_cons]

theorem wf_nil : Table.WF [] := by simp [Table.WF]

theorem mapAt_eq_none_iff (t : Table) (k : Str) : mapAt t k = none ↔ k ∉ t.keys := by
  induction t with
  | nil => simp [mapAt, Table.keys]
  | cons e rest ih =>
    obtain ⟨k', v⟩ := e
    by_cases hk : k' = k
    · simp [mapAt, Table.keys, hk]
    · have hk' : ¬ k = k' := fun h => hk h.symm
      simp only [Table.keys] at ih
      simp [mapAt, Table.keys, hk, hk', ih]

theorem mapCount_eq (t : Table) (k : Str) :
    mapCount t k = if (mapAt t k).isSome then 1 else 0 := by
  induction t with
  | nil => simp [mapAt, mapCount]
  | cons e rest ih =>
    obtain ⟨k', v⟩ := e
    by_cases hk : k' = k
    · simp [mapAt, mapCount, hk]
    · simp [mapAt, mapCount, hk, ih]

theorem mapAt_of_mem {t : Table} (h : t.WF) {k : Str} {v : Int} (hm : (k, v) ∈ t) :
    mapAt t k = some v := by
  induction t with
  | nil => simp at hm
  | cons e rest ih =>
    obtain ⟨k', v'⟩ := e
    rw [wf_cons] at h
    rcases List.mem_cons.1 hm with heq | hin
    · injection heq with h1 h2
      simp [mapAt, h1, h2]
    · have hlt := h.1 (k, v) hin
      have hne : k' ≠ k := strLt_ne hlt
      simp [mapAt, hne, ih h.2 hin]

theorem mem_of_mapAt {t : Table} {k : Str} {v : Int} (hm : mapAt t k = some v) :
    (k, v) ∈ t := by
  induction t with
  | nil => simp [mapAt] at hm
  | cons e rest ih =>
    obtain ⟨k', v'⟩ := e
    by_cases hk : k' = k
    · simp [mapAt, hk] at hm
      simp [hk, hm]
    · simp [mapAt, hk] at hm
      exact List.mem_cons_of_mem _ (ih hm)

theorem keys_mapIncrement (t : Table) (k : Str) : (mapIncrement t k).keys = t.keys := by
  induction t with
  | nil => rfl
  | cons e rest ih =>
    obtain ⟨k', v⟩ := e
    by_cases hk : k' = k
    · simp [mapIncrement, Table.keys, hk]
    · simp only [Table.keys] at ih
      simp [mapIncrement, Table.keys, hk, ih]

theorem wf_iff_keys (t : Table) :
    t.WF ↔ List.Pairwise (fun a b => strLt a b = true) t.keys := by
  simp [Table.WF, Table.keys, List.pairwise_map]

theorem wf_mapIncrement {t : Table} (h : t.WF) (k : Str) : (mapIncrement t k).WF := by
  rw [wf_iff_keys, keys_mapIncrement, ← wf_iff_keys]
  exact h

theorem mem_mapSubscript {t : Table} {k : Str} {e : Str × Int}
    (he : e ∈ mapSubscript t k) : e = (k, 0) ∨ e ∈ t := by
  induction t with
  | nil => simpa [mapSubscript] using he
  | cons e' rest ih =>
    obtain ⟨k', v⟩ := e'
    simp only [mapSubscript] at he
    split at he
    · rcases List.mem_cons.1 he with h | h
      · exact Or.inl h
      · exact Or.inr h
    · split at he
      · rcases List.mem_cons.1 he with h | h
        · exact Or.inr (by simp [h])
        · rcases ih h with h' | h'
          · exact Or.inl h'
          · exact Or.inr (List.mem_cons_of_mem _ h')
      · exact Or.inr he

theorem wf_mapSubscript {t : Table} (h : t.WF) (k : Str) : (mapSubscript t k).WF := by
  induction t with
  | nil => simp [mapSubscript, Table.WF]
  | cons e rest ih =>
    obtain ⟨k', v⟩ := e
    have h' := wf_cons.1 h
    simp only [mapSubscript]
    split
    · rename_i hlt
      rw [wf_cons]
      refine ⟨?_, h⟩
      intro e' he'
      rcases List.mem_cons.1 he' with heq | hin
      · simpa [heq] using hlt
      · exact strLt_trans _ _ _ hlt (h'.1 e' hin)
    · split
      · rename_i _ hlt
        rw [wf_cons]
        refine ⟨?_, ih h'.2⟩
        intro e' he'
        rcases mem_mapSubscript he' with heq | hin
        · simpa [heq] using hlt
        · exact h'.1 e' hin
      · exact h

theorem mapAt_mapSubscript {t : Table} (h : t.WF) (k k2 : Str) :
    mapAt (mapSubscript t k) k2
      = if k2 = k then some ((mapAt t k).getD 0) else mapAt t k2 := by
  induction t with
  | nil =>
    by_cases hk : k2 = k
    · simp [mapSubscript, mapAt, hk]
    · have hk' : ¬ k = k2 := fun h => hk h.symm
      simp [mapSubscript, mapAt, hk, hk']
  | cons e rest ih =>
    obtain ⟨k', v⟩ := e
    have h' := wf_cons.1 h
    simp only [mapSubscript]
    split
    · rename_i hlt
      by_cases hk : k2 = k
      · subst hk
        have hnone : mapAt ((k', v) :: rest) k2 = none := by
          rw [mapAt_eq_none_iff]
          intro hmem
          simp only [Table.keys, List.mem_map] at hmem
          obtain ⟨e', he', hfst⟩ := hmem
          rcases List.mem_cons.1 he' with heq | hin
          · rw [heq] at hfst
            simp only at hfst
            rw [hfst, strLt_irrefl] at hlt
            exact Bool.false_ne_true hlt
          · have := strLt_trans _ _ _ hlt (h'.1 e' hin)
            rw [hfst, strLt_irrefl] at this
            exact Bool.false_ne_true this
        rw [hnone]
        simp [mapAt]
      · have hk' : ¬ k = k2 := fun h => hk h.symm
        simp [mapAt, hk, hk']
    · split
      · rename_i _ hlt
        have hne : k' ≠ k := strLt_ne hlt
        by_cases hk : k2 = k
        · subst hk
          simp [mapAt, hne, ih h'.2]
        · by_cases hk2 : k' = k2
          · simp [mapAt, hk, hk2]
          · simp [mapAt, hk, hk2, ih h'.2]
      · rename_i h1 h2
        have heq : k = k' :=
          strLt_connex k k' (by simpa using h1) (by simpa using h2)
        subst heq
        by_cases hk : k2 = k
        · simp [mapAt, hk]
        · simp [hk]

theorem mapAt_mapIncrement (t : Table) (k k2 : Str) :
    mapAt (mapIncrement t k) k2
      = if k2 = k then (mapAt t k).map (fun v => wrapInt (v + 1)) else mapAt t k2 := by
  induction t with
  | nil => simp [mapIncrement, mapAt]
  | cons e rest ih =>
    obtain ⟨k', v⟩ := e
    by_cases hk' : k' = k
    · subst hk'
      by_cases hk : k2 = k'
      · simp [mapIncrement, mapAt, hk]
      · have hk2 : ¬ k' = k2 := fun h => hk h.symm
        simp [mapIncrement, mapAt, hk, hk2]
    · by_cases hk : k2 = k
      · subst hk
        simp [mapIncrement, mapAt, hk', ih]
      · by_cases hk2 : k' = k2
        · simp [mapIncrement, mapAt, hk', hk, hk2]
        · simp [mapIncrement, mapAt, hk', hk, hk2, ih]

/-- The effect of `itemCount[item]++` on every key of a well-formed table. -/
theorem mapAt_bump {t : Table} (h : t.WF) (k k2 : Str) :
    mapAt (mapIncrement (mapSubscript t k) k) k2
      = if k2 = k then some (wrapInt ((mapAt t k).getD 0 + 1)) else mapAt t k2 := by
  rw [mapAt_mapIncrement]
  by_cases hk : k2 = k
  · simp [hk, mapAt_mapSubscript h]
  · simp [hk, mapAt_mapSubscript h]

theorem wf_bump {t : Table} (h : t.WF) (k : Str) :
    (mapIncrement (mapSubscript t k) k).WF :=
  wf_mapIncrement (wf_mapSubscript h k) k

/-! ## Iteration order -/

/-- The order of `std::string` is the lexicographic order of the byte lists. -/
theorem strLt_iff_lex : ∀ (a b : Str), strLt a b = true ↔ List.Lex (fun x y => x < y) a b
  | [], [] => by
    constructor
    · intro h; simp [strLt] at h
    · intro h; cases h
  | [], y :: ys => by
    constructor
    · intro _; exact List.Lex.nil
    · intro _; simp [strLt]
  | x :: xs, [] => by
    constructor
    · intro h; simp [strLt] at h
    · intro h; cases h
  | x :: xs, y :: ys => by
    have ih := strLt_iff_lex xs ys
    simp only [strLt]
    by_cases hxy : x < y
    · simp only [hxy, if_true, true_iff]
      exact List.Lex.rel hxy
    · by_cases hyx : y < x
      · simp only [hxy, hyx, if_false, if_true, Bool.false_eq_true, false_iff]
        intro h
        cases h with
        | cons _ => exact absurd hyx (Nat.lt_irrefl _)
        | rel h' => exact hxy h'
      · simp only [hxy, hyx, if_false, ih]
        have hxy' : x = y := by omega
        subst hxy'
        constructor
        · intro h; exact List.Lex.cons h
        · intro h
          cases h with
          | cons h' => exact h'
          | rel h' => exact absurd h' hxy

theorem map_entries_eq_map_keys {t : Table} (h : t.WF) (f : Str → Int → Str) :
    t.map (fun e => f e.1 e.2) = t.keys.map (fun k => f k ((mapAt t k).getD 0)) := by
  simp only [Table.keys, List.map_map]
  apply List.map_congr_left
  intro e he
  have : mapAt t e.1 = some e.2 := mapAt_of_mem h he
  simp [this]

theorem keys_nodup {t : Table} (h : t.WF) : t.keys.Nodup := by
  rw [wf_iff_keys] at h
  exact List.Pairwise.imp (fun hab => strLt_ne hab) h

theorem mem_keys_iff_mapCount (t : Table) (k : Str) : k ∈ t.keys ↔ mapCount t k = 1 := by
  rw [mapCount_eq]
  cases h : mapAt t k with
  | none => simpa using (mapAt_eq_none_iff t k).1 h
  | some v =>
    have : k ∈ t.keys := by
      by_contra hk
      rw [← mapAt_eq_none_iff, h] at hk
      cases hk
    simpa using this

/-! ## Lower-casing -/

theorem toLower_eq_map (s : Str) : toLower s = s.map tolower := by
  induction s with
  | nil => rfl
  | cons c cs ih =>
    simp only [toLower, transform, List.map_cons] at ih ⊢
    rw [ih]

theorem tolower_not_upper (c : Nat) : ¬ (65 ≤ tolower c ∧ tolower c ≤ 90) := by
  unfold tolower
  split <;> omega

theorem tolower_of_not_upper {c : Nat} (h : ¬ (65 ≤ c ∧ c ≤ 90)) : tolower c = c := by
  simp [tolower, h]

theorem toLower_eq_self_iff (k : Str) :
    toLower k = k ↔ ∀ c ∈ k, ¬ (65 ≤ c ∧ c ≤ 90) := by
  rw [toLower_eq_map]
  induction k with
  | nil => simp
  | cons c cs ih =>
    simp only [List.map_cons, List.cons.injEq, ih, List.mem_cons, forall_eq_or_imp]
    constructor
    · rintro ⟨h1, h2⟩
      refine ⟨?_, h2⟩
      intro hc
      have := tolower_not_upper c
      rw [h1] at this
      exact this hc
    · rintro ⟨h1, h2⟩
      exact ⟨tolower_of_not_upper h1, h2⟩

theorem toLower_idem (s : Str) : toLower (toLower s) = toLower s := by
  rw [toLower_eq_self_iff]
  intro c hc
  rw [toLower_eq_map, List.mem_map] at hc
  obtain ⟨d, _, hd⟩ := hc
  rw [← hd]
  exact tolower_not_upper d

theorem toLower_eq_nil_iff (s : Str) : toLower s = [] ↔ s = [] := by
  rw [toLower_eq_map]
  simp

/-! ## Formatted output -/

theorem padded_left_20 (os : OStream) (s : Str) :
    padded (left (setw 20 os)) s = leftField s := by
  simp [padded, left, setw, leftField]

theorem putStr_width_zero (s : Str) (os : OStream) (h : os.width = 0) :
    putStr s os = { os with buf := os.buf ++ s } := by
  cases os with
  | mk buf width leftAdjust =>
    simp only at h
    subst h
    simp [putStr, padded]

theorem decimalDigits_length : ∀ (fuel n : Nat), n < fuel →
    (decimalDigits fuel n).length = numDigits n := by
  intro fuel
  induction fuel with
  | zero => intro n h; omega
  | succ f ih =>
    intro n h
    by_cases h10 : n < 10
    · simp [decimalDigits, h10, numDigits, Nat.log_of_lt h10]
    · have hlt : n / 10 < f := by omega
      simp only [decimalDigits, h10, if_false, List.length_append, List.length_singleton,
        ih _ hlt, numDigits]
      rw [Nat.log_of_one_lt_of_le (by norm_num) (by omega : 10 ≤ n)]

/-- The digits written are the base-10 digits of the number, most significant first,
as ASCII characters. -/
theorem decimalDigits_eq_digits : ∀ (fuel n : Nat), n < fuel → 0 < n →
    decimalDigits fuel n = (Nat.digits 10 n).reverse.map (fun d => 48 + d) := by
  intro fuel
  induction fuel with
  | zero => intro n h; omega
  | succ f ih =>
    intro n h hpos
    by_cases h10 : n < 10
    · rw [Nat.digits_of_lt 10 n (by omega) h10]
      simp [decimalDigits, h10]
    · rw [Nat.digits_def' (by norm_num) hpos]
      simp only [decimalDigits, h10, if_false, List.reverse_cons, List.map_append,
        List.map_cons, List.map_nil]
      rw [ih (n / 10) (by omega) (by omega)]

theorem decimal_eq_digits (i : Int) (h : 0 < i) :
    decimal i = (Nat.digits 10 i.toNat).reverse.map (fun d => 48 + d) := by
  have hn : i.natAbs = i.toNat := by omega
  have hneg : ¬ i < 0 := by omega
  simp only [decimal, hneg, if_false, hn]
  exact decimalDigits_eq_digits _ _ (by omega) (by omega)

theorem decimal_length (i : Int) :
    (decimal i).length = numDigits i.natAbs + if i < 0 then 1 else 0 := by
  unfold decimal
  split
  · simp [decimalDigits_length]
  · simp [decimalDigits_length]

theorem leftField_length (name : Str) : (leftField name).length = max 20 name.length := by
  simp only [leftField, List.length_append, List.length_replicate]
  omega

/-! ## The text of a count -/

theorem decimalDigits_mem : ∀ (fuel n : Nat), ∀ c ∈ decimalDigits fuel n,
    48 ≤ c ∧ c ≤ 57 := by
  intro fuel
  induction fuel with
  | zero => intro n c hc; simp [decimalDigits] at hc
  | succ f ih =>
    intro n c hc
    by_cases h10 : n < 10
    · simp only [decimalDigits, h10, if_true, List.mem_singleton] at hc
      omega
    · simp only [decimalDigits, h10, if_false, List.mem_append, List.mem_singleton] at hc
      rcases hc with hc | hc
      · exact ih _ c hc
      · omega

theorem decimal_mem (i : Int) : ∀ c ∈ decimal i, c = 45 ∨ (48 ≤ c ∧ c ≤ 57) := by
  intro c hc
  unfold decimal at hc
  split at hc
  · rcases List.mem_cons.1 hc with h | h
    · exact Or.inl h
    · exact Or.inr (decimalDigits_mem _ _ c h)
  · exact Or.inr (decimalDigits_mem _ _ c hc)

theorem count_newline_frequencyLine (k : Str) (v : Int) (hk : 10 ∉ k) :
    (frequencyLine k v ++ [10]).count 10 = 1 := by
  have hsep : bytes " : " = [32, 58, 32] := by decide
  have h1 : k.count 10 = 0 := List.count_eq_zero.2 hk
  have h2 : (decimal v).count 10 = 0 := by
    apply List.count_eq_zero.2
    intro h
    have := decimal_mem v 10 h
    omega
  simp [frequencyLine, leftField, hsep, List.count_append, h1, h2, List.count_replicate]

theorem count_newline_body (t : Table) (h : ∀ k ∈ t.keys, 10 ∉ k) :
    ((t.map (fun e => frequencyLine e.1 e.2 ++ [10])).flatten).count 10 = t.keys.length := by
  induction t with
  | nil => simp [Table.keys]
  | cons e rest ih =>
    have hk : 10 ∉ e.1 := h e.1 (by simp [Table.keys])
    have hrest : ∀ k ∈ Table.keys rest, 10 ∉ k := by
      intro k hk'
      simp only [Table.keys, List.map_cons, List.mem_cons] at hk' ⊢
      exact h k (by simp only [Table.keys, List.map_cons, List.mem_cons]; exact Or.inr hk')
    have ih' := ih hrest
    simp only [Table.keys, List.length_map] at ih' ⊢
    simp only [List.map_cons, List.flatten_cons, List.count_append, List.length_cons] at ih' ⊢
    rw [ih', ← List.count_append, count_newline_frequencyLine _ _ hk]
    omega

/-! ## Reading a backup line back -/

/-- The separator occurs in a text exactly when the text can be cut around it. -/
theorem containsSep_iff (l : Str) :
    containsSep l = true ↔ ∃ s t, l = s ++ [32, 58, 32] ++ t := by
  induction l with
  | nil => simp [containsSep]
  | cons c cs ih =>
    simp only [containsSep, Bool.or_eq_true, ih]
    constructor
    · rintro (h | ⟨s, t, h⟩)
      · refine ⟨[], cs.drop 2, ?_⟩
        unfold startsWithSep at h
        split at h
        · rename_i heq
          injection heq with h1 h2
          simp [h1, h2]
        · cases h
      · exact ⟨c :: s, t, by simp [h]⟩
    · rintro ⟨s, t, h⟩
      cases s with
      | nil =>
        left
        simp only [List.nil_append, List.cons_append] at h
        rw [h]
        rfl
      | cons x s' =>
        right
        simp only [List.cons_append, List.cons.injEq] at h
        exact ⟨s', t, by simp [h.2]⟩

/-! ## The reading loop -/

theorem wrapInt_add (a b : Int) : wrapInt (wrapInt a + b) = wrapInt (a + b) := by
  unfold wrapInt
  omega

theorem wrapInt_of_range {x : Int} (h1 : -2147483648 ≤ x) (h2 : x ≤ INT_MAX) :
    wrapInt x = x := by
  unfold wrapInt
  unfold INT_MAX at h2
  omega

theorem occurrences_nil (k : Str) : occurrences k [] = 0 := rfl

theorem occurrences_cons (k line : Str) (rest : List Str) :
    occurrences k (line :: rest)
      = occurrences k rest + if line ≠ [] ∧ toLower line = k then 1 else 0 := by
  simp [occurrences, List.countP_cons]

theorem occurrences_le_length (k : Str) (lines : List Str) :
    occurrences k lines ≤ lines.length := by
  simpa [occurrences] using List.countP_le_length (l := lines) _

theorem occurrences_pos_iff (k : Str) (lines : List Str) :
    0 < occurrences k lines ↔ ∃ l ∈ lines, l ≠ [] ∧ toLower l = k := by
  simp [occurrences, List.countP_pos_iff]

namespace GroceryTracker

theorem wf_readLoop (lines : List Str) : ∀ (t : Table), t.WF → (readLoop lines t).WF := by
  induction lines with
  | nil => intro t h; exact h
  | cons line rest ih =>
    intro t h
    by_cases hl : line = []
    · simpa [readLoop, hl] using ih t h
    · simpa [readLoop, hl] using ih _ (wf_bump h (toLower line))

/-- What the loop leaves under each key: the stored count grows by the number of
non-empty lines that lower-case to the key (in 32-bit arithmetic). -/
theorem mapAt_readLoop (lines : List Str) : ∀ (t : Table), t.WF → ∀ (k : Str),
    mapAt (readLoop lines t) k
      = if occurrences k lines = 0 then mapAt t k
        else some (wrapInt ((mapAt t k).getD 0 + occurrences k lines)) := by
  induction lines with
  | nil => intro t _ k; simp [readLoop, occurrences_nil]
  | cons line rest ih =>
    intro t h k
    by_cases hl : line = []
    · have : occurrences k (line :: rest) = occurrences k rest := by
        simp [occurrences_cons, hl]
      simpa [readLoop, hl, this] using ih t h k
    · have hstep : readLoop (line :: rest) t
          = readLoop rest (mapIncrement (mapSubscript t (toLower line)) (toLower line)) := by
        simp [readLoop, hl]
      rw [hstep, ih _ (wf_bump h (toLower line)) k, mapAt_bump h]
      by_cases hk : k = toLower line
      · subst hk
        have hocc : occurrences (toLower line) (line :: rest)
            = occurrences (toLower line) rest + 1 := by
          simp [occurrences_cons, hl]
        rw [hocc]
        by_cases h0 : occurrences (toLower line) rest = 0
        · simp [h0]
        · simp only [h0, if_false, if_true, Option.getD_some, Nat.succ_ne_zero]
          rw [wrapInt_add]
          congr 2
          push_cast
          ring
      · have hk' : ¬ toLower line = k := fun h => hk h.symm
        have hocc : occurrences k (line :: rest) = occurrences k rest := by
          simp [occurrences_cons, hk']
        rw [hocc]
        simp [hk]

/-- Empty lines are skipped: removing them from the file does not change the result. -/
theorem readLoop_filter (lines : List Str) : ∀ (t : Table),
    readLoop lines t = readLoop (lines.filter (fun l => l ≠ [])) t := by
  induction lines with
  | nil => intro t; rfl
  | cons line rest ih =>
    intro t
    by_cases hl : line = []
    · simpa [readLoop, hl] using ih t
    · simpa [readLoop, hl, List.filter_cons] using ih _

theorem itemCount_loadRecords (g : GroceryTracker) (fileName : Str) (lines : List Str)
    (cout : OStream) :
    (g.loadRecords fileName (some lines) cout).1.itemCount = readLoop lines g.itemCount := rfl

/-- The table of a fresh tracker after loading `lines`: every key with at least one
occurrence, and only those, mapped to the 32-bit reduction of its occurrence count. -/
theorem mapAt_load_fresh (lines : List Str) (k : Str) :
    mapAt (readLoop lines []) k
      = if occurrences k lines = 0 then none else some (wrapInt (occurrences k lines)) := by
  rw [mapAt_readLoop lines [] wf_nil k]
  simp [mapAt]

/-! ## Lookup -/

/-- The conditional of `lookupItemFrequency` never reaches the throwing case of `at`:
the computed value is the stored count, or 0 for a missing key. -/
theorem frequency_eq (t : Table) (q : Str) : frequency t q = some ((mapAt t q).getD 0) := by
  unfold frequency
  rw [mapCount_eq]
  cases h : mapAt t q <;> simp

theorem lookupItemFrequency_fst (g : GroceryTracker) (line : Str) (cout : OStream) :
    ∃ out, g.lookupItemFrequency line cout
      = some ((mapAt g.itemCount (toLower line)).getD 0, out) := by
  simp only [lookupItemFrequency, frequency_eq]
  exact ⟨_, rfl⟩

/-! ## Loops over the entries -/

theorem frequencyEntry_eq (os : OStream) (e : Str × Int) :
    frequencyEntry os e = ⟨os.buf ++ (frequencyLine e.1 e.2 ++ [10]), 0, true⟩ := by
  have h1 : bytes "\n" = [10] := by decide
  simp only [frequencyEntry, putInt, putStr, padded_left_20, h1]
  simp [padded, left, setw, frequencyLine]

theorem backupEntry_eq (os : OStream) (e : Str × Int) :
    backupEntry os e = ⟨os.buf ++ (frequencyLine e.1 e.2 ++ [10]), 0, true⟩ := by
  have h1 : bytes "\n" = [10] := by decide
  simp only [backupEntry, putInt, putStr, padded_left_20, h1]
  simp [padded, left, setw, frequencyLine]

/-- The inner loop of the histogram with enough fuel: it appends one asterisk per
remaining value of `i` and stops by its own condition. -/
theorem starLoop_eq (second : Int) : ∀ (fuel : Nat) (i : Int) (os : OStream),
    os.width = 0 → (second - i).toNat ≤ fuel →
      starLoop second fuel i os
        = { os with buf := os.buf ++ List.replicate (second - i).toNat 42 } := by
  intro fuel
  induction fuel with
  | zero =>
    intro i os _ hf
    have : (second - i).toNat = 0 := by omega
    simp [starLoop, this]
  | succ f ih =>
    intro i os hw hf
    have hstar : bytes "*" = [42] := by decide
    by_cases hlt : i < second
    · have hn : (second - i).toNat = (second - (i + 1)).toNat + 1 := by omega
      simp only [starLoop, hlt, if_true, hstar]
      rw [putStr_width_zero _ _ hw, ih (i + 1) _ (by simpa using hw) (by omega), hn,
        List.replicate_succ]
      simp
    · have : (second - i).toNat = 0 := by omega
      simp [starLoop, hlt, this]

theorem histogramEntry_eq (os : OStream) (e : Str × Int) :
    histogramEntry os e = ⟨os.buf ++ (histogramLine e.1 e.2 ++ [10]), 0, true⟩ := by
  have h1 : bytes ")\n" = bytes ")" ++ [10] := by decide
  simp only [histogramEntry, putInt]
  rw [starLoop_eq _ _ _ _ rfl (by simp)]
  simp only [putStr, padded_left_20, h1]
  simp [padded, left, setw, histogramLine]

/-- A loop over the entries whose body appends one text per entry writes the texts of
the entries in iteration order. -/
theorem foldl_buf (f : OStream → Str × Int → OStream) (line : Str × Int → Str)
    (hf : ∀ os e, (f os e).buf = os.buf ++ line e) :
    ∀ (t : Table) (os : OStream), (t.foldl f os).buf = os.buf ++ (t.map line).flatten := by
  intro t
  induction t with
  | nil => intro os; simp
  | cons e rest ih =>
    intro os
    simp [List.foldl_cons, ih, hf, List.append_assoc]

theorem displayFrequencies_buf (g : GroceryTracker) (cout : OStream) :
    (g.displayFrequencies cout).buf
      = (putStr (bytes "-----------------\n") (putStr (bytes "\nItem Frequencies:\n") cout)).buf
        ++ (g.itemCount.map (fun e => frequencyLine e.1 e.2 ++ [10])).flatten := by
  simp only [displayFrequencies]
  exact foldl_buf _ _ (fun os e => by rw [frequencyEntry_eq]) _ _

theorem displayHistogram_buf (g : GroceryTracker) (cout : OStream) :
    (g.displayHistogram cout).buf
      = (putStr (bytes "--------------------\n")
          (putStr (bytes "\nFrequency Histogram:\n") cout)).buf
        ++ (g.itemCount.map (fun e => histogramLine e.1 e.2 ++ [10])).flatten := by
  simp only [displayHistogram]
  exact foldl_buf _ _ (fun os e => by rw [histogramEntry_eq]) _ _

theorem backupData_file (g : GroceryTracker) (cout : OStream) :
    (g.backupData true cout).1
      = some (bytes "Grocery Tracker Backup Data\n" ++ bytes "----------------------------\n"
        ++ (g.itemCount.map (fun e => frequencyLine e.1 e.2 ++ [10])).flatten) := by
  simp only [backupData, Bool.not_true, Bool.false_eq_true, if_false, Option.some.injEq]
  rw [foldl_buf _ _ (fun os e => by rw [backupEntry_eq])]
  simp [putStr, padded, OStream.fresh]

end GroceryTracker

/-! ## Algebra of loading -/

/-- Two well-formed tables that answer every `at` alike are the same table. -/
theorem table_ext : ∀ (t1 t2 : Table), t1.WF → t2.WF →
    (∀ k, mapAt t1 k = mapAt t2 k) → t1 = t2
  | [], [], _, _, _ => rfl
  | [], (k, v) :: r, _, _, h => by
    have := h k
    simp [mapAt] at this
  | (k, v) :: r, [], _, _, h => by
    have := h k
    simp [mapAt] at this
  | (k1, v1) :: r1, (k2, v2) :: r2, h1, h2, h => by
    have w1 := wf_cons.1 h1
    have w2 := wf_cons.1 h2
    have hk : k1 = k2 := by
      by_contra hne
      have hne' : ¬ k2 = k1 := fun e => hne e.symm
      have e1 := h k1
      have e2 := h k2
      simp only [mapAt, if_true, hne, hne', if_false] at e1 e2
      have m1 : (k1, v1) ∈ r2 := mem_of_mapAt e1.symm
      have m2 : (k2, v2) ∈ r1 := mem_of_mapAt e2
      have l1 := w2.1 _ m1
      have l2 := w1.1 _ m2
      simp only at l1 l2
      rw [strLt_asymm l1] at l2
      exact Bool.false_ne_true l2
    subst hk
    have hv : v1 = v2 := by
      have e1 := h k1
      simpa [mapAt] using e1
    subst hv
    have hnone : ∀ (r : Table), (∀ e' ∈ r, strLt k1 e'.1 = true) → mapAt r k1 = none := by
      intro r hr
      rw [mapAt_eq_none_iff]
      intro hmem
      simp only [Table.keys, List.mem_map] at hmem
      obtain ⟨e', he', hfst⟩ := hmem
      have := hr e' he'
      rw [hfst, strLt_irrefl] at this
      exact Bool.false_ne_true this
    have hrest : ∀ k, mapAt r1 k = mapAt r2 k := by
      intro k
      by_cases hk : k1 = k
      · subst hk
        rw [hnone r1 w1.1, hnone r2 w2.1]
      · have := h k
        simpa [mapAt, hk] using this
    rw [table_ext r1 r2 w1.2 w2.2 hrest]

theorem occurrences_perm {l1 l2 : List Str} (h : l1.Perm l2) (k : Str) :
    occurrences k l1 = occurrences k l2 :=
  List.Perm.countP_eq _ h

theorem occurrences_append (k : Str) (l1 l2 : List Str) :
    occurrences k (l1 ++ l2) = occurrences k l1 + occurrences k l2 := by
  simp [occurrences, List.countP_append]

theorem sumCounts_cons (e : Str × Int) (t : Table) :
    sumCounts (e :: t) = e.2 + sumCounts t := by
  simp [sumCounts]

theorem sumCounts_mapSubscript (t : Table) (k : Str) :
    sumCounts (mapSubscript t k) = sumCounts t := by
  induction t with
  | nil => simp [mapSubscript, sumCounts]
  | cons e rest ih =>
    obtain ⟨k', v⟩ := e
    simp only [mapSubscript]
    split
    · simp [sumCounts_cons]
    · split
      · simp [sumCounts_cons, ih]
      · rfl

theorem sumCounts_mapIncrement (t : Table) (k : Str) (v : Int) (h : mapAt t k = some v) :
    sumCounts (mapIncrement t k) = sumCounts t + (wrapInt (v + 1) - v) := by
  induction t with
  | nil => simp [mapAt] at h
  | cons e rest ih =>
    obtain ⟨k', v'⟩ := e
    by_cases hk : k' = k
    · simp only [mapAt, hk, if_true, Option.some.injEq] at h
      subst h
      simp only [mapIncrement, hk, if_true, sumCounts_cons]
      ring
    · simp only [mapAt, hk, if_false] at h
      simp only [mapIncrement, hk, if_false, sumCounts_cons, ih h]
      ring

theorem sumCounts_bump {t : Table} (h : t.WF) (k : Str) :
    sumCounts (mapIncrement (mapSubscript t k) k)
      = sumCounts t + (wrapInt (countOf t k + 1) - countOf t k) := by
  have hat : mapAt (mapSubscript t k) k = some (countOf t k) := by
    rw [mapAt_mapSubscript h]
    simp [countOf]
  rw [sumCounts_mapIncrement _ _ _ hat, sumCounts_mapSubscript]

theorem countOf_bump {t : Table} (h : t.WF) (k k2 : Str) :
    countOf (mapIncrement (mapSubscript t k) k) k2
      = if k2 = k then wrapInt (countOf t k + 1) else countOf t k2 := by
  unfold countOf
  rw [mapAt_bump h]
  by_cases hk : k2 = k <;> simp [hk]

theorem nonEmptyLines_cons (line : Str) (rest : List Str) :
    nonEmptyLines (line :: rest) = nonEmptyLines rest + if line ≠ [] then 1 else 0 := by
  simp [nonEmptyLines, List.countP_cons]

theorem sum_toNat_eq (t : Table) (h : ∀ e ∈ t, 0 ≤ e.2) :
    (((t.map (fun e => e.2.toNat)).sum : Nat) : Int) = sumCounts t := by
  induction t with
  | nil => simp [sumCounts]
  | cons e rest ih =>
    have h0 : 0 ≤ e.2 := h e (List.mem_cons_self _ _)
    have ih' := ih (fun e' he' => h e' (List.mem_cons_of_mem _ he'))
    simp only [List.map_cons, List.sum_cons, sumCounts_cons, Nat.cast_add, ih']
    omega

namespace GroceryTracker

theorem readLoop_append (a b : List Str) : ∀ (t : Table),
    readLoop (a ++ b) t = readLoop b (readLoop a t) := by
  induction a with
  | nil => intro t; rfl
  | cons line rest ih =>
    intro t
    by_cases hl : line = []
    · simpa [readLoop, hl] using ih t
    · simpa [readLoop, hl] using ih _

theorem readLoop_single (line : Str) (t : Table) (h : line ≠ []) :
    readLoop [line] t = mapIncrement (mapSubscript t (toLower line)) (toLower line) := by
  simp [readLoop, h]

theorem countOf_readLoop (lines : List Str) (t : Table) (h : t.WF) (k : Str) :
    countOf (readLoop lines t) k
      = if occurrences k lines = 0 then countOf t k
        else wrapInt (countOf t k + occurrences k lines) := by
  unfold countOf
  rw [mapAt_readLoop lines t h k]
  by_cases h0 : occurrences k lines = 0 <;> simp [h0]

/-- Each non-empty line adds one to the sum of the counts, as long as no count leaves
the range of `int`. -/
theorem sumCounts_readLoop (lines : List Str) : ∀ (t : Table), t.WF →
    (∀ k, 0 ≤ countOf t k ∧ countOf t k + occurrences k lines ≤ INT_MAX) →
      sumCounts (readLoop lines t) = sumCounts t + nonEmptyLines lines := by
  induction lines with
  | nil => intro t _ _; simp [readLoop, nonEmptyLines]
  | cons line rest ih =>
    intro t hwf hr
    by_cases hl : line = []
    · have hstep : readLoop (line :: rest) t = readLoop rest t := by simp [readLoop, hl]
      rw [hstep, nonEmptyLines_cons, ih t hwf]
      · simp [hl]
      · intro k
        have := hr k
        simpa [occurrences_cons, hl] using this
    · have hstep : readLoop (line :: rest) t
          = readLoop rest (mapIncrement (mapSubscript t (toLower line)) (toLower line)) := by
        simp [readLoop, hl]
      have hkey := hr (toLower line)
      have hocc : occurrences (toLower line) (line :: rest)
          = occurrences (toLower line) rest + 1 := by
        simp [occurrences_cons, hl]
      rw [hocc] at hkey
      have hw : wrapInt (countOf t (toLower line) + 1) = countOf t (toLower line) + 1 :=
        wrapInt_of_range (by omega) (by unfold INT_MAX at hkey ⊢; omega)
      rw [hstep, nonEmptyLines_cons, ih _ (wf_bump hwf _), sumCounts_bump hwf, hw]
      · simp only [hl, ne_eq, not_false_eq_true, if_true]
        push_cast
        ring
      · intro k
        rw [countOf_bump hwf]
        by_cases hk : k = toLower line
        · subst hk
          simp only [if_true, hw]
          push_cast at hkey
          omega
        · have hk' : ¬ toLower line = k := fun e => hk e.symm
          have := hr k
          simpa [hk, occurrences_cons, hk'] using this

/-- The table a fresh tracker holds after loading depends only on how often each key
occurs among the lines. -/
theorem readLoop_perm {l1 l2 : List Str} (h : l1.Perm l2) :
    readLoop l1 [] = readLoop l2 [] := by
  apply table_ext _ _ (wf_readLoop l1 [] wf_nil) (wf_readLoop l2 [] wf_nil)
  intro k
  rw [mapAt_load_fresh, mapAt_load_fresh, occurrences_perm h]

end GroceryTracker

theorem count_star_histogramLine (k : Str) (v : Int) :
    (histogramLine k v ++ [10]).count 42 = k.count 42 + v.toNat := by
  have h1 : bytes " " = [32] := by decide
  have h2 : bytes " (" = [32, 40] := by decide
  have h3 : bytes ")" = [41] := by decide
  have hd : (decimal v).count 42 = 0 := by
    apply List.count_eq_zero.2
    intro h
    have := decimal_mem v 42 h
    omega
  simp [histogramLine, leftField, h1, h2, h3, List.count_append, hd, List.count_replicate]

theorem count_star_histogram_body (t : Table) :
    ((t.map (fun e => histogramLine e.1 e.2 ++ [10])).flatten).count 42
      = (t.keys.map (fun k => k.count 42)).sum + (t.map (fun e => e.2.toNat)).sum := by
  induction t with
  | nil => simp [Table.keys]
  | cons e rest ih =>
    simp only [Table.keys, List.map_map] at ih
    simp only [Table.keys, List.map_cons, List.flatten_cons, List.sum_cons, List.map_map]
    rw [List.count_append, count_star_histogramLine, ih]
    omega

namespace GroceryTracker

/-- The count a lookup reports on a fresh tracker after loading: the number of
occurrences of the key, when that fits an `int`. -/
theorem countOf_load_fresh (lines : List Str) (k : Str)
    (h : (occurrences k lines : Int) ≤ INT_MAX) :
    countOf (readLoop lines []) k = occurrences k lines := by
  unfold countOf
  rw [mapAt_load_fresh]
  by_cases h0 : occurrences k lines = 0
  · simp [h0]
  · have hw : wrapInt (occurrences k lines) = occurrences k lines :=
      wrapInt_of_range (by omega) h
    simp [h0, hw]

end GroceryTracker

/-! ## The menu loop -/

theorem tolower_eq_y (c : Nat) : tolower c = 121 ↔ c = 121 ∨ c = 89 := by
  unfold tolower
  split <;> omega

theorem putStr_width (s : Str) (os : OStream) : (putStr s os).width = 0 := rfl

theorem foldl_width (f : OStream → Str × Int → OStream)
    (hf : ∀ os e, (f os e).width = 0) :
    ∀ (t : Table) (os : OStream), os.width = 0 → (t.foldl f os).width = 0 := by
  intro t
  induction t with
  | nil => intro os h; exact h
  | cons e rest ih =>
    intro os _
    exact ih _ (hf os e)

namespace GroceryTracker

theorem printMenu_width (cout : OStream) : (printMenu cout).width = 0 := rfl

theorem printMenu_eq (cout : OStream) (h : cout.width = 0) :
    printMenu cout = { cout with buf := cout.buf ++ menuText } := by
  cases cout with
  | mk buf width leftAdjust =>
    simp only at h
    subst h
    have hm : bytes "\nMenu Options:\n" ++ (bytes "1. Look up an item frequency\n"
        ++ (bytes "2. Display all item frequencies\n"
        ++ (bytes "3. Display frequency histogram\n"
        ++ (bytes "4. Exit\n" ++ bytes "Choose an option (1-4): ")))) = menuText := by decide
    simp only [printMenu, putStr, padded, Nat.zero_sub, List.replicate_zero, List.append_nil,
      List.nil_append, ite_self, List.append_assoc, hm]

theorem displayFrequencies_width (g : GroceryTracker) (cout : OStream) :
    (g.displayFrequencies cout).width = 0 := by
  simp only [displayFrequencies]
  exact foldl_width _ (fun os e => by rw [frequencyEntry_eq]) _ _ rfl

theorem displayHistogram_width (g : GroceryTracker) (cout : OStream) :
    (g.displayHistogram cout).width = 0 := by
  simp only [displayHistogram]
  exact foldl_width _ (fun os e => by rw [histogramEntry_eq]) _ _ rfl

theorem backupData_width (g : GroceryTracker) (opens : Bool) (cout : OStream) :
    (g.backupData opens cout).2.width = 0 := by
  cases opens <;> rfl

theorem lookupItemFrequency_eq (g : GroceryTracker) (line : Str) (cout : OStream) :
    g.lookupItemFrequency line cout
      = some (countOf g.itemCount (toLower line),
          putStr (bytes "\n") (putInt (countOf g.itemCount (toLower line))
            (putStr (bytes "\": ") (putStr (toLower line) (putStr (bytes "Frequency for \"")
              (putStr (bytes "Enter item name to search: ") cout)))))) := by
  simp only [lookupItemFrequency, frequency_eq, countOf]

theorem menuPass_lookup (sinkOpens : Bool) (inp : MenuInput) (w : World)
    (h : inp.option = 1) :
    menuPass sinkOpens inp w
      = some ({ w with
          cout := putStr (bytes "\n") (putInt (countOf w.tracker.itemCount (toLower inp.query))
            (putStr (bytes "\": ") (putStr (toLower inp.query)
              (putStr (bytes "Frequency for \"")
                (putStr (bytes "Enter item name to search: ") (printMenu w.cout))))))
          calls := w.calls ++ [Call.lookupItemFrequency] }, 1) := by
  simp only [menuPass, h, if_true, lookupItemFrequency_eq]

theorem menuPass_list (sinkOpens : Bool) (inp : MenuInput) (w : World)
    (h : inp.option = 2) :
    menuPass sinkOpens inp w
      = some ({ w with
          cout := w.tracker.displayFrequencies (printMenu w.cout)
          calls := w.calls ++ [Call.displayFrequencies] }, 2) := by
  simp [menuPass, h]

theorem menuPass_histogram (sinkOpens : Bool) (inp : MenuInput) (w : World)
    (h : inp.option = 3) :
    menuPass sinkOpens inp w
      = some ({ w with
          cout := w.tracker.displayHistogram (printMenu w.cout)
          calls := w.calls ++ [Call.displayHistogram] }, 3) := by
  simp [menuPass, h]

theorem menuPass_four (sinkOpens : Bool) (inp : MenuInput) (w : World)
    (h : inp.option = 4) :
    menuPass sinkOpens inp w = some (confirmExit sinkOpens inp.confirm w (printMenu w.cout)) := by
  simp [menuPass, h]

theorem menuPass_invalid (sinkOpens : Bool) (inp : MenuInput) (w : World)
    (h1 : inp.option ≠ 1) (h2 : inp.option ≠ 2) (h3 : inp.option ≠ 3)
    (h4 : inp.option ≠ 4) :
    menuPass sinkOpens inp w
      = some ({ w with
          cout := putStr (bytes "Invalid option. Please try again.\n") (printMenu w.cout) },
        inp.option) := by
  simp [menuPass, h1, h2, h3, h4]

theorem confirmExit_yes (sinkOpens : Bool) (confirm : Nat) (w : World) (cout : OStream)
    (h : confirm = 121 ∨ confirm = 89) :
    confirmExit sinkOpens confirm w cout
      = ({ w with
          cout := putStr (bytes "Exiting program. Goodbye!\n")
            (w.tracker.backupData sinkOpens
              (putStr (bytes "Are you sure you want to exit? (y/n): ") cout)).2
          backupFile := match (w.tracker.backupData sinkOpens
              (putStr (bytes "Are you sure you want to exit? (y/n): ") cout)).1 with
            | some file => some file
            | none => w.backupFile
          calls := w.calls ++ [Call.backupData] }, 4) := by
  have hy : tolower confirm = 121 := (tolower_eq_y confirm).2 h
  simp only [confirmExit, hy, if_true]

theorem confirmExit_no (sinkOpens : Bool) (confirm : Nat) (w : World) (cout : OStream)
    (h1 : confirm ≠ 121) (h2 : confirm ≠ 89) :
    confirmExit sinkOpens confirm w cout
      = ({ w with cout := putStr (bytes "Are you sure you want to exit? (y/n): ") cout }, 0) := by
  have hy : ¬ tolower confirm = 121 := fun e => by
    rcases (tolower_eq_y confirm).1 e with h | h
    · exact h1 h
    · exact h2 h
  simp only [confirmExit, hy, if_false]

/-- What one pass of the menu loop does, whatever the input: it returns normally, leaves
the tracker alone, makes the call that goes with the input, and hands 4 to the loop test
exactly for a confirmed exit. -/
theorem menuPass_spec (sinkOpens : Bool) (inp : MenuInput) (w : World) :
    ∃ w' o, menuPass sinkOpens inp w = some (w', o)
      ∧ w'.tracker = w.tracker
      ∧ w'.calls = w.calls ++ callsOf inp
      ∧ w'.cout.width = 0
      ∧ (o = 4 ↔ confirmsExit inp)
      ∧ (¬ confirmsExit inp → w'.backupFile = w.backupFile) := by
  by_cases h1 : inp.option = 1
  · rw [menuPass_lookup sinkOpens inp w h1]
    refine ⟨_, _, rfl, rfl, ?_, rfl, ?_, fun _ => rfl⟩
    · simp [callsOf, h1]
    · simp [confirmsExit, h1]
  · by_cases h2 : inp.option = 2
    · rw [menuPass_list sinkOpens inp w h2]
      refine ⟨_, _, rfl, rfl, ?_, displayFrequencies_width _ _, ?_, fun _ => rfl⟩
      · simp [callsOf, h2]
      · simp [confirmsExit, h2]
    · by_cases h3 : inp.option = 3
      · rw [menuPass_histogram sinkOpens inp w h3]
        refine ⟨_, _, rfl, rfl, ?_, displayHistogram_width _ _, ?_, fun _ => rfl⟩
        · simp [callsOf, h3]
        · simp [confirmsExit, h3]
      · by_cases h4 : inp.option = 4
        · rw [menuPass_four sinkOpens inp w h4]
          by_cases hy : inp.confirm = 121 ∨ inp.confirm = 89
          · have hc : confirmsExit inp := ⟨h4, hy⟩
            rw [confirmExit_yes sinkOpens _ w _ hy]
            refine ⟨_, _, rfl, rfl, ?_, rfl, ?_, fun hn => absurd hc hn⟩
            · simp [callsOf, h4, hc]
            · simp [hc]
          · have hc : ¬ confirmsExit inp := fun h => hy h.2
            rw [confirmExit_no sinkOpens _ w _ (fun e => hy (Or.inl e))
              (fun e => hy (Or.inr e))]
            refine ⟨_, _, rfl, rfl, ?_, rfl, ?_, fun _ => rfl⟩
            · simp [callsOf, h4, hc]
            · simp [hc]
        · have hc : ¬ confirmsExit inp := fun h => h4 h.1
          rw [menuPass_invalid sinkOpens inp w h1 h2 h3 h4]
          refine ⟨_, _, rfl, rfl, ?_, rfl, ?_, fun _ => rfl⟩
          · simp [callsOf, h1, h2, h3, hc]
          · simp [hc, h4]

theorem runLoop_cons_continue (sinkOpens : Bool) (inp : MenuInput) (rest : List MenuInput)
    (w w' : World) (o : Int) (h : menuPass sinkOpens inp w = some (w', o)) (ho : o ≠ 4) :
    runLoop sinkOpens (inp :: rest) w = runLoop sinkOpens rest w' := by
  simp [runLoop, h, ho]

theorem runLoop_cons_exit (sinkOpens : Bool) (inp : MenuInput) (rest : List MenuInput)
    (w w' : World) (h : menuPass sinkOpens inp w = some (w', 4)) :
    runLoop sinkOpens (inp :: rest) w = RunResult.terminated w' := by
  simp [runLoop, h]

/-- Without a confirmed exit in the input the loop uses all of it and waits for more. -/
theorem runLoop_no_exit (sinkOpens : Bool) (inputs : List MenuInput) :
    ∀ (w : World), (∀ x ∈ inputs, ¬ confirmsExit x) →
      ∃ w', runLoop sinkOpens inputs w = RunResult.awaitingInput w'
        ∧ w'.tracker = w.tracker
        ∧ w'.calls = w.calls ++ inputs.flatMap callsOf
        ∧ w'.backupFile = w.backupFile := by
  induction inputs with
  | nil => intro w _; exact ⟨_, rfl, rfl, by simp, rfl⟩
  | cons inp rest ih =>
    intro w h
    obtain ⟨w1, o, hp, ht, hc, _, ho, hb⟩ := menuPass_spec sinkOpens inp w
    have hne : ¬ confirmsExit inp := h inp (List.mem_cons_self _ _)
    have ho4 : o ≠ 4 := fun e => hne (ho.1 e)
    obtain ⟨w2, hr, ht2, hc2, hb2⟩ := ih w1 (fun x hx => h x (List.mem_cons_of_mem _ hx))
    refine ⟨w2, ?_, ?_, ?_, ?_⟩
    · rw [runLoop_cons_continue sinkOpens inp rest w w1 o hp ho4, hr]
    · rw [ht2, ht]
    · rw [hc2, hc]
      simp [List.flatMap_cons]
    · rw [hb2, hb hne]

/-- The loop ends at the first confirmed exit of the input and reads nothing after it. -/
theorem runLoop_exit (sinkOpens : Bool) (pre : List MenuInput) (inp : MenuInput)
    (post : List MenuInput) :
    ∀ (w : World), (∀ x ∈ pre, ¬ confirmsExit x) → confirmsExit inp →
      ∃ w', runLoop sinkOpens (pre ++ inp :: post) w = RunResult.terminated w'
        ∧ runLoop sinkOpens (pre ++ [inp]) w = RunResult.terminated w'
        ∧ w'.tracker = w.tracker
        ∧ w'.calls = w.calls ++ pre.flatMap callsOf ++ [Call.backupData] := by
  induction pre with
  | nil =>
    intro w _ hc
    obtain ⟨w1, o, hp, ht, hcalls, _, ho, _⟩ := menuPass_spec sinkOpens inp w
    have ho4 : o = 4 := ho.2 hc
    subst ho4
    refine ⟨w1, ?_, ?_, ht, ?_⟩
    · exact runLoop_cons_exit sinkOpens inp post w w1 hp
    · exact runLoop_cons_exit sinkOpens inp [] w w1 hp
    · rw [hcalls]
      have : callsOf inp = [Call.backupData] := by
        have h4 := hc.1
        simp [callsOf, h4, hc]
      simp [this]
  | cons x rest ih =>
    intro w h hc
    obtain ⟨w1, o, hp, ht, hcalls, _, ho, _⟩ := menuPass_spec sinkOpens x w
    have hne : ¬ confirmsExit x := h x (List.mem_cons_self _ _)
    have ho4 : o ≠ 4 := fun e => hne (ho.1 e)
    obtain ⟨w2, hr1, hr2, ht2, hc2⟩ :=
      ih w1 (fun y hy => h y (List.mem_cons_of_mem _ hy)) hc
    refine ⟨w2, ?_, ?_, ?_, ?_⟩
    · rw [List.cons_append, runLoop_cons_continue sinkOpens x _ w w1 o hp ho4, hr1]
    · rw [List.cons_append, runLoop_cons_continue sinkOpens x _ w w1 o hp ho4, hr2]
    · rw [ht2, ht]
    · rw [hc2, hcalls]
      simp [List.flatMap_cons]

theorem backupData_not_mem_calls (pre : List MenuInput) (h : ∀ x ∈ pre, ¬ confirmsExit x) :
    Call.backupData ∉ pre.flatMap callsOf := by
  intro hmem
  rw [List.mem_flatMap] at hmem
  obtain ⟨x, hx, hcall⟩ := hmem
  have hne := h x hx
  unfold callsOf at hcall
  split at hcall
  · simp at hcall
  · split at hcall
    · simp at hcall
    · split at hcall
      · simp at hcall
      · simp [hne] at hcall

end GroceryTracker

namespace GroceryTracker

/-- The loop never ends by an exception, and the tracker it ends or waits with is the
tracker it started with. -/
theorem runLoop_tracker (sinkOpens : Bool) (cin : List MenuInput) :
    ∀ (w : World), ∃ w', (runLoop sinkOpens cin w = RunResult.terminated w'
        ∨ runLoop sinkOpens cin w = RunResult.awaitingInput w')
      ∧ w'.tracker = w.tracker := by
  induction cin with
  | nil => intro w; exact ⟨_, Or.inr rfl, rfl⟩
  | cons inp rest ih =>
    intro w
    obtain ⟨w1, o, hp, ht, _, _, _, _⟩ := menuPass_spec sinkOpens inp w
    by_cases ho : o = 4
    · subst ho
      exact ⟨w1, Or.inl (runLoop_cons_exit sinkOpens inp rest w w1 hp), ht⟩
    · obtain ⟨w2, hr, ht2⟩ := ih w1
      refine ⟨w2, ?_, by rw [ht2, ht]⟩
      rw [runLoop_cons_continue sinkOpens inp rest w w1 o hp ho]
      exact hr

theorem exists_first_confirmed (cin : List MenuInput) (h : ∃ x ∈ cin, confirmsExit x) :
    ∃ pre inp post, cin = pre ++ inp :: post ∧ (∀ y ∈ pre, ¬ confirmsExit y)
      ∧ confirmsExit inp := by
  induction cin with
  | nil =>
    obtain ⟨x, hx, _⟩ := h
    simp at hx
  | cons a rest ih =>
    by_cases ha : confirmsExit a
    · exact ⟨[], a, rest, rfl, by simp, ha⟩
    · obtain ⟨x, hx, hc⟩ := h
      have hx' : x ∈ rest := by
        rcases List.mem_cons.1 hx with e | e
        · exact absurd (e ▸ hc) ha
        · exact e
      obtain ⟨pre, inp, post, he, hpre, hinp⟩ := ih ⟨x, hx', hc⟩
      refine ⟨a :: pre, inp, post, by rw [he]; rfl, ?_, hinp⟩
      intro y hy
      rcases List.mem_cons.1 hy with e | e
      · rw [e]; exact ha
      · exact hpre y e

theorem backupData_cout (g : GroceryTracker) (opens : Bool) (cout : OStream)
    (h : cout.width = 0) :
    (g.backupData opens cout).2
      = { cout with buf := cout.buf ++ (if opens
            then bytes "Data successfully backed up to " ++ g.backupFileName ++ [10]
            else bytes "Error: Could not create backup file " ++ g.backupFileName ++ [10]) } := by
  have hn : bytes "\n" = [10] := by decide
  cases opens
  · simp only [backupData, Bool.not_false, if_true, Bool.false_eq_true, if_false]
    rw [putStr_width_zero _ cout h, putStr_width_zero _ _ (by simpa using h)]
    simp [endl]
  · simp only [backupData, Bool.not_true, Bool.false_eq_true, if_false, if_true]
    rw [putStr_width_zero _ _ (putStr_width _ _), putStr_width_zero _ _ (putStr_width _ _),
      putStr_width_zero _ cout h, hn]
    simp

theorem backupData_closed (g : GroceryTracker) (cout : OStream) :
    (g.backupData false cout).1 = none := rfl

theorem loadRecords_none (g : GroceryTracker) (fileName : Str) (cout : OStream)
    (h : cout.width = 0) :
    g.loadRecords fileName none cout
      = (g, { cout with
          buf := cout.buf ++ bytes "Error: Could not open " ++ fileName ++ [10] }) := by
  simp only [loadRecords]
  rw [putStr_width_zero _ cout h, putStr_width_zero _ _ (by simpa using h)]
  simp [endl]

end GroceryTracker

/-! # Claims -/

namespace GroceryTracker

/-- C1. `loadRecords` on a fresh tracker: the resulting map is well formed; its keys are
exactly the lower-cased non-empty lines; each key whose number of occurrences fits an
`int` is stored with exactly that number; dropping the empty lines from the file changes
nothing; a line made of spaces only is a key. Scenario A: the lines "Milk", "milk",
"Bread", "" give the map with bread at 1 and milk at 2, in that order. -/
theorem C1_loadRecords_tally :
    (∀ (fileName : Str) (cout : OStream) (lines : List Str) (t : Table),
      t = (new.loadRecords fileName (some lines) cout).1.itemCount →
        t.WF ∧
        (∀ k, k ∈ t.keys ↔ ∃ l ∈ lines, l ≠ [] ∧ toLower l = k) ∧
        (∀ k, (occurrences k lines : Int) ≤ INT_MAX →
          ∀ v, (k, v) ∈ t ↔ (0 < occurrences k lines ∧ v = occurrences k lines)) ∧
        t = (new.loadRecords fileName (some (lines.filter (fun l => l ≠ [])))
              cout).1.itemCount ∧
        (∀ n, 0 < n → List.replicate n 32 ∈ lines → List.replicate n 32 ∈ t.keys))
    ∧ (new.loadRecords (bytes "CS210_Project_Three_Input_File.txt")
          (some [bytes "Milk", bytes "milk", bytes "Bread", bytes ""]) OStream.fresh).1.itemCount
        = [(bytes "bread", 1), (bytes "milk", 2)] := by
  refine ⟨?_, by decide⟩
  intro fileName cout lines t ht
  have ht' : t = readLoop lines [] := ht
  have hwf : t.WF := ht' ▸ wf_readLoop lines [] wf_nil
  have hkeys : ∀ k, k ∈ t.keys ↔ ∃ l ∈ lines, l ≠ [] ∧ toLower l = k := by
    intro k
    rw [← occurrences_pos_iff, ← not_iff_not, ← mapAt_eq_none_iff, ht', mapAt_load_fresh]
    by_cases h0 : occurrences k lines = 0 <;> simp [h0]
  refine ⟨hwf, hkeys, ?_, ?_, ?_⟩
  · intro k hk v
    have hwrap : wrapInt (occurrences k lines) = occurrences k lines :=
      wrapInt_of_range (by omega) hk
    constructor
    · intro hm
      have := mapAt_of_mem hwf hm
      rw [ht', mapAt_load_fresh, hwrap] at this
      by_cases h0 : occurrences k lines = 0
      · simp [h0] at this
      · simp only [h0, if_false, Option.some.injEq] at this
        exact ⟨Nat.pos_of_ne_zero h0, this.symm⟩
    · rintro ⟨hpos, hv⟩
      apply mem_of_mapAt
      rw [ht', mapAt_load_fresh, hwrap, hv]
      simp [Nat.ne_of_gt hpos]
  · rw [ht']
    exact readLoop_filter lines []
  · intro n hn hmem
    rw [hkeys]
    refine ⟨_, hmem, ?_, ?_⟩
    · cases n with
      | zero => omega
      | succ m => simp [List.replicate_succ]
    · clear hmem hn
      induction n with
      | zero => rfl
      | succ m ih =>
        simp only [toLower, List.replicate_succ, transform] at ih ⊢
        rw [ih]
        rfl

/-- C1, witness: Scenario A satisfies the bound for the key "milk", which is stored
with its two occurrences. -/
theorem C1_loadRecords_tally_witness :
    (occurrences (bytes "milk") [bytes "Milk", bytes "milk", bytes "Bread", bytes ""] : Int)
        ≤ INT_MAX
    ∧ ∀ v, (bytes "milk", v) ∈ (new.loadRecords [] (some [bytes "Milk", bytes "milk",
          bytes "Bread", bytes ""]) OStream.fresh).1.itemCount
        ↔ (0 < occurrences (bytes "milk") [bytes "Milk", bytes "milk", bytes "Bread", bytes ""]
            ∧ v = occurrences (bytes "milk")
                [bytes "Milk", bytes "milk", bytes "Bread", bytes ""]) :=
  ⟨by decide,
    (C1_loadRecords_tally.1 [] OStream.fresh
      [bytes "Milk", bytes "milk", bytes "Bread", bytes ""] _ rfl).2.2.1
      (bytes "milk") (by decide)⟩

/-- C2. After loading any lines into a fresh tracker, a query whose lower-cased text is
`name` makes `lookupItemFrequency` compute the number `k` of non-empty lines that
lower-case to `name` (for `k` within the range of `int`). Scenario B: after the lines
"Milk", "milk", "Bread", "", the query "MILK" computes 2. -/
theorem C2_lookup_counts_casing_variants :
    (∀ (fileName : Str) (cout cout' : OStream) (lines : List Str) (name q : Str) (k : Nat),
      occurrences name lines = k → (k : Int) ≤ INT_MAX → toLower q = name →
        ∃ out, (new.loadRecords fileName (some lines) cout).1.lookupItemFrequency q cout'
          = some ((k : Int), out))
    ∧ ((new.loadRecords (bytes "CS210_Project_Three_Input_File.txt")
          (some [bytes "Milk", bytes "milk", bytes "Bread", bytes ""])
          OStream.fresh).1.lookupItemFrequency (bytes "MILK") OStream.fresh).map Prod.fst
        = some 2 := by
  refine ⟨?_, by decide⟩
  intro fileName cout cout' lines name q k hk hmax hq
  obtain ⟨out, hout⟩ :=
    lookupItemFrequency_fst (new.loadRecords fileName (some lines) cout).1 q cout'
  refine ⟨out, ?_⟩
  rw [hout, hq, itemCount_loadRecords]
  show some ((mapAt (readLoop lines []) name).getD 0, out) = _
  rw [mapAt_load_fresh, hk]
  by_cases h0 : k = 0
  · simp [h0]
  · have : wrapInt (k : Int) = k := wrapInt_of_range (by omega) hmax
    simp [h0, this]

/-- C2, witness: "Milk" and "milk" are the two lines that lower-case to "milk", and the
query "MiLk" is a casing variant of it. -/
theorem C2_lookup_counts_casing_variants_witness :
    occurrences (bytes "milk") [bytes "Milk", bytes "milk", bytes "Bread", bytes ""] = 2
    ∧ ((2 : Nat) : Int) ≤ INT_MAX
    ∧ toLower (bytes "MiLk") = bytes "milk"
    ∧ ∃ out, (new.loadRecords [] (some [bytes "Milk", bytes "milk", bytes "Bread", bytes ""])
          OStream.fresh).1.lookupItemFrequency (bytes "MiLk") OStream.fresh
        = some (((2 : Nat) : Int), out) :=
  ⟨by decide, by decide, by decide,
    C2_lookup_counts_casing_variants.1 [] OStream.fresh OStream.fresh
      [bytes "Milk", bytes "milk", bytes "Bread", bytes ""] (bytes "milk") (bytes "MiLk") 2
      (by decide) (by decide) (by decide)⟩

/-- C3. After loading any lines into a fresh tracker, a non-empty query to which no
non-empty line lower-cases makes `lookupItemFrequency` compute 0. The lookup returns
normally on every table and every query, and `at` is reached only for a key that is
present, where it does not throw. -/
theorem C3_lookup_absent_is_zero :
    (∀ (fileName : Str) (cout cout' : OStream) (lines : List Str) (q : Str),
      q ≠ [] → (∀ l ∈ lines, l ≠ [] → toLower l ≠ toLower q) →
        ∃ out, (new.loadRecords fileName (some lines) cout).1.lookupItemFrequency q cout'
          = some (0, out))
    ∧ (∀ (g : GroceryTracker) (q : Str) (cout' : OStream),
        ∃ r, g.lookupItemFrequency q cout' = some r)
    ∧ (∀ (t : Table) (q : Str), mapCount t q ≠ 0 → ∃ v, mapAt t q = some v) := by
  refine ⟨?_, ?_, ?_⟩
  · intro fileName cout cout' lines q _ habs
    obtain ⟨out, hout⟩ :=
      lookupItemFrequency_fst (new.loadRecords fileName (some lines) cout).1 q cout'
    refine ⟨out, ?_⟩
    rw [hout, itemCount_loadRecords]
    show some ((mapAt (readLoop lines []) (toLower q)).getD 0, out) = _
    have h0 : occurrences (toLower q) lines = 0 := by
      by_contra hne
      obtain ⟨l, hl, hne', heq⟩ := (occurrences_pos_iff _ _).1 (Nat.pos_of_ne_zero hne)
      exact habs l hl hne' heq
    rw [mapAt_load_fresh, h0]
    simp
  · intro g q cout'
    obtain ⟨out, hout⟩ := lookupItemFrequency_fst g q cout'
    exact ⟨_, hout⟩
  · intro t q hq
    rw [mapCount_eq] at hq
    cases h : mapAt t q with
    | none => simp [h] at hq
    | some v => exact ⟨v, rfl⟩

/-- C3, witness: Scenario B, the query "eggs" after the lines "Milk", "milk", "Bread",
"" computes 0. -/
theorem C3_lookup_absent_is_zero_witness :
    bytes "eggs" ≠ []
    ∧ (∀ l ∈ [bytes "Milk", bytes "milk", bytes "Bread", bytes ""],
        l ≠ [] → toLower l ≠ toLower (bytes "eggs"))
    ∧ ∃ out, (new.loadRecords [] (some [bytes "Milk", bytes "milk", bytes "Bread", bytes ""])
          OStream.fresh).1.lookupItemFrequency (bytes "eggs") OStream.fresh
        = some (0, out) :=
  ⟨by decide, by decide,
    C3_lookup_absent_is_zero.1 [] OStream.fresh OStream.fresh
      [bytes "Milk", bytes "milk", bytes "Bread", bytes ""] (bytes "eggs")
      (by decide) (by decide)⟩

/-- C4. For every well-formed map (the invariant of `std::map`), `displayFrequencies`,
`displayHistogram` and `backupData` each write, after their header lines, one line per
element of one and the same list of names, in the order of that list, each line
beginning with its name. That list is the list of keys: it holds no name twice, holds
exactly the keys present in the map, and ascends strictly in the lexicographic order of
the bytes, which is the order of `std::string`. The map of a new tracker is well formed
and `loadRecords`, the only method that changes the map, keeps it so. -/
theorem C4_same_sorted_names :
    (∀ (g : GroceryTracker) (cout : OStream), g.itemCount.WF →
      (g.displayFrequencies cout).buf
          = (putStr (bytes "-----------------\n")
              (putStr (bytes "\nItem Frequencies:\n") cout)).buf
            ++ (g.itemCount.keys.map
                (fun k => frequencyLine k ((mapAt g.itemCount k).getD 0) ++ [10])).flatten
      ∧ (g.displayHistogram cout).buf
          = (putStr (bytes "--------------------\n")
              (putStr (bytes "\nFrequency Histogram:\n") cout)).buf
            ++ (g.itemCount.keys.map
                (fun k => histogramLine k ((mapAt g.itemCount k).getD 0) ++ [10])).flatten
      ∧ (g.backupData true cout).1
          = some (bytes "Grocery Tracker Backup Data\n"
            ++ bytes "----------------------------\n"
            ++ (g.itemCount.keys.map
                (fun k => frequencyLine k ((mapAt g.itemCount k).getD 0) ++ [10])).flatten)
      ∧ (∀ (k : Str) (v : Int), k <+: frequencyLine k v ∧ k <+: histogramLine k v)
      ∧ g.itemCount.keys.Nodup
      ∧ (∀ k, k ∈ g.itemCount.keys ↔ mapCount g.itemCount k = 1)
      ∧ List.Pairwise (fun a b => List.Lex (fun x y => x < y) a b) g.itemCount.keys
      ∧ List.Pairwise (fun a b => strLt a b = true) g.itemCount.keys)
    ∧ new.itemCount.WF
    ∧ (∀ (g : GroceryTracker) (fileName : Str) (inFile : Option (List Str)) (cout : OStream),
        g.itemCount.WF → (g.loadRecords fileName inFile cout).1.itemCount.WF) := by
  refine ⟨?_, wf_nil, ?_⟩
  · intro g cout hwf
    refine ⟨?_, ?_, ?_, ?_, keys_nodup hwf, mem_keys_iff_mapCount _, ?_,
      (wf_iff_keys _).1 hwf⟩
    · rw [displayFrequencies_buf,
        map_entries_eq_map_keys hwf (fun k v => frequencyLine k v ++ [10])]
    · rw [displayHistogram_buf,
        map_entries_eq_map_keys hwf (fun k v => histogramLine k v ++ [10])]
    · rw [backupData_file,
        map_entries_eq_map_keys hwf (fun k v => frequencyLine k v ++ [10])]
    · intro k v
      constructor
      · exact ⟨_, by simp only [frequencyLine, leftField, List.append_assoc]; rfl⟩
      · exact ⟨_, by simp only [histogramLine, leftField, List.append_assoc]; rfl⟩
    · exact List.Pairwise.imp (fun hab => (strLt_iff_lex _ _).1 hab) ((wf_iff_keys _).1 hwf)
  · intro g fileName inFile cout hwf
    cases inFile with
    | none => exact hwf
    | some lines => exact wf_readLoop lines _ hwf

/-- C4, witness: the map of Scenario A, bread at 1 and milk at 2, is well formed; its
three outputs run over the names "bread", "milk". -/
theorem C4_same_sorted_names_witness :
    Table.WF [(bytes "bread", 1), (bytes "milk", 2)]
    ∧ (displayHistogram ⟨[(bytes "bread", 1), (bytes "milk", 2)], bytes "frequency.dat"⟩
          OStream.fresh).buf
        = (putStr (bytes "--------------------\n")
            (putStr (bytes "\nFrequency Histogram:\n") OStream.fresh)).buf
          ++ ((Table.keys [(bytes "bread", 1), (bytes "milk", 2)]).map
              (fun k => histogramLine k
                ((mapAt [(bytes "bread", 1), (bytes "milk", 2)] k).getD 0) ++ [10])).flatten :=
  have hwf : Table.WF [(bytes "bread", 1), (bytes "milk", 2)] := by decide
  ⟨hwf,
    (C4_same_sorted_names.1 ⟨[(bytes "bread", 1), (bytes "milk", 2)], bytes "frequency.dat"⟩
      OStream.fresh hwf).2.1⟩

/-- C6. In the map a fresh tracker holds after `loadRecords` has read any number `n` of
the lines of a file (all of them when `n` is the number of lines or more), every key is
a non-empty string and is its own lower-casing, which is to say it holds no byte in
'A'..'Z', and every stored count is at least 1 (for a key whose number of occurrences
in the file fits an `int`). -/
theorem C6_table_invariant (fileName : Str) (cout : OStream) (lines : List Str) (n : Nat)
    (k : Str) (v : Int)
    (h : (k, v) ∈ (new.loadRecords fileName (some (lines.take n)) cout).1.itemCount) :
    k ≠ [] ∧ toLower k = k ∧ (∀ c ∈ k, ¬ (65 ≤ c ∧ c ≤ 90))
    ∧ ((occurrences k lines : Int) ≤ INT_MAX → 1 ≤ v) := by
  have hwf : (readLoop (lines.take n) []).WF := wf_readLoop _ [] wf_nil
  have hat : mapAt (readLoop (lines.take n) []) k = some v := mapAt_of_mem hwf h
  rw [mapAt_load_fresh] at hat
  have hpos : 0 < occurrences k (lines.take n) := by
    by_contra h0
    have : occurrences k (lines.take n) = 0 := by omega
    simp [this] at hat
  obtain ⟨l, _, hl, hlk⟩ := (occurrences_pos_iff _ _).1 hpos
  have hself : toLower k = k := by rw [← hlk, toLower_idem]
  refine ⟨?_, hself, (toLower_eq_self_iff k).1 hself, ?_⟩
  · intro hk
    rw [hk, toLower_eq_nil_iff] at hlk
    exact hl hlk
  · intro hmax
    have hle : occurrences k (lines.take n) ≤ occurrences k lines :=
      List.Sublist.countP_le _ (List.take_sublist n lines)
    have hwrap : wrapInt (occurrences k (lines.take n)) = occurrences k (lines.take n) :=
      wrapInt_of_range (by omega) (by unfold INT_MAX at hmax ⊢; omega)
    simp only [Nat.ne_of_gt hpos, if_false, hwrap, Option.some.injEq] at hat
    omega

/-- C6, witness: after the first two lines of Scenario A the map holds "milk" with 2. -/
theorem C6_table_invariant_witness :
    (bytes "milk", 2) ∈ (new.loadRecords [] (some
        ([bytes "Milk", bytes "milk", bytes "Bread", bytes ""].take 2)) OStream.fresh).1.itemCount
    ∧ (bytes "milk" ≠ [] ∧ toLower (bytes "milk") = bytes "milk"
      ∧ (∀ c ∈ bytes "milk", ¬ (65 ≤ c ∧ c ≤ 90))
      ∧ ((occurrences (bytes "milk") [bytes "Milk", bytes "milk", bytes "Bread", bytes ""] : Int)
          ≤ INT_MAX → (1 : Int) ≤ 2)) :=
  ⟨by decide,
    C6_table_invariant [] OStream.fresh [bytes "Milk", bytes "milk", bytes "Bread", bytes ""] 2
      (bytes "milk") 2 (by decide)⟩

end GroceryTracker

/-- C7. `toLower` keeps the length of its argument and acts position by position: a byte
in 'A'..'Z' (65..90) becomes that byte plus 32, every other byte stays as it is, among
them digits, the space, lower-case letters and the bytes from 128 on. -/
theorem C7_toLower_pointwise (s : Str) :
    (toLower s).length = s.length
    ∧ (∀ i : Nat,
        (toLower s)[i]? = (s[i]?).map (fun c => if 65 ≤ c ∧ c ≤ 90 then c + 32 else c))
    ∧ (∀ (i c : Nat), s[i]? = some c → (c < 65 ∨ 90 < c) → (toLower s)[i]? = some c)
    ∧ (∀ (i c : Nat), s[i]? = some c → 65 ≤ c → c ≤ 90 →
        (toLower s)[i]? = some (c + 32)) := by
  have hmap : ∀ i : Nat,
      (toLower s)[i]? = (s[i]?).map (fun c => if 65 ≤ c ∧ c ≤ 90 then c + 32 else c) := by
    intro i
    rw [toLower_eq_map, List.getElem?_map]
    rfl
  refine ⟨by rw [toLower_eq_map, List.length_map], hmap, ?_, ?_⟩
  · intro i c hc hlow
    have : ¬ (65 ≤ c ∧ c ≤ 90) := by omega
    simp [hmap, hc, this]
  · intro i c hc h1 h2
    simp [hmap, hc, h1, h2]

/-- C7, witness: in "Ab 1~" followed by the byte 200, the letter 'A' at position 0
becomes 'a' and the byte 200 at position 5 passes through. -/
theorem C7_toLower_pointwise_witness :
    (bytes "Ab 1~" ++ [200])[0]? = some 65 ∧ 65 ≤ 65 ∧ 65 ≤ 90
    ∧ (toLower (bytes "Ab 1~" ++ [200]))[0]? = some (65 + 32)
    ∧ (bytes "Ab 1~" ++ [200])[5]? = some 200 ∧ (200 < 65 ∨ 90 < 200)
    ∧ (toLower (bytes "Ab 1~" ++ [200]))[5]? = some 200 :=
  ⟨by decide, by decide, by decide,
    (C7_toLower_pointwise (bytes "Ab 1~" ++ [200])).2.2.2 0 65 (by decide) (by decide)
      (by decide),
    by decide, by decide,
    (C7_toLower_pointwise (bytes "Ab 1~" ++ [200])).2.2.1 5 200 (by decide) (by decide)⟩

namespace GroceryTracker

/-- C8. For an entry with a count of at least 0, the body of the loop of
`displayHistogram` appends to `cout`: the name in full, `20 - length` spaces when the
name is shorter than 20, one space, exactly `count` asterisks, " (", the decimal count,
")" and a newline; `displayHistogram` writes these lines, one per entry in iteration
order, after its two header lines. With enough steps allowed the inner loop stops by its
own condition. For the count 0 the same text has no asterisk. Scenario C: ("bread", 1)
gives "bread", 15 spaces, a space, one asterisk and " (1)". -/
theorem C8_histogram_line :
    (∀ (cout : OStream) (name : Str) (count : Int), 0 ≤ count →
      (histogramEntry cout (name, count)).buf
          = cout.buf ++ (name ++ List.replicate (20 - name.length) 32 ++ [32]
              ++ List.replicate count.toNat 42 ++ bytes " (" ++ decimal count ++ bytes ")"
              ++ [10])
        ∧ (count.toNat : Int) = count
        ∧ (∀ fuel, count.toNat ≤ fuel → ∀ os : OStream, os.width = 0 →
            starLoop count fuel 0 os = starLoop count count.toNat 0 os))
    ∧ (∀ (g : GroceryTracker) (cout : OStream),
        (g.displayHistogram cout).buf
          = (putStr (bytes "--------------------\n")
              (putStr (bytes "\nFrequency Histogram:\n") cout)).buf
            ++ (g.itemCount.map (fun e => histogramLine e.1 e.2 ++ [10])).flatten)
    ∧ (∀ (cout : OStream) (name : Str),
        (histogramEntry cout (name, 0)).buf
          = cout.buf ++ (name ++ List.replicate (20 - name.length) 32 ++ [32]
              ++ bytes " (0)" ++ [10]))
    ∧ (histogramEntry OStream.fresh (bytes "bread", 1)).buf
        = bytes "bread" ++ List.replicate 15 32 ++ bytes " " ++ bytes "*" ++ bytes " (1)"
          ++ [10] := by
  refine ⟨?_, displayHistogram_buf, ?_, by decide⟩
  · intro cout name count hc
    refine ⟨?_, Int.toNat_of_nonneg hc, ?_⟩
    · rw [histogramEntry_eq]
      have h1 : bytes " " = [32] := by decide
      simp [histogramLine, leftField, h1]
    · intro fuel hfuel os hw
      rw [starLoop_eq count fuel 0 os hw (by simpa using hfuel),
        starLoop_eq count count.toNat 0 os hw (by simp)]
  · intro cout name
    rw [histogramEntry_eq]
    have h1 : bytes " " = [32] := by decide
    have h2 : decimal 0 = bytes "0" := by decide
    have h3 : bytes " (" ++ bytes "0" ++ bytes ")" = bytes " (0)" := by decide
    simp only [histogramLine, leftField, h1, h2, Int.toNat_zero, List.replicate_zero,
      List.append_nil, List.append_assoc]
    rw [← h3]
    simp

/-- C8, witness: the entry ("milk", 2) has a count of at least 0; its line carries two
asterisks. -/
theorem C8_histogram_line_witness :
    (0 : Int) ≤ 2
    ∧ (histogramEntry OStream.fresh (bytes "milk", 2)).buf
        = OStream.fresh.buf ++ (bytes "milk" ++ List.replicate (20 - (bytes "milk").length) 32
            ++ [32] ++ List.replicate (2 : Int).toNat 42 ++ bytes " (" ++ decimal 2 ++ bytes ")"
            ++ [10]) :=
  ⟨by decide, (C8_histogram_line.1 OStream.fresh (bytes "milk") 2 (by decide)).1⟩

/-- C9. For every entry, the body of the loop of `displayFrequencies` appends to `cout`
the name in full, `20 - length` spaces when the name is shorter than 20 (none for a name
of 20 bytes or more), " : ", the decimal count and a newline; `displayFrequencies`
writes these lines, one per entry in iteration order, after its two header lines. The
line without its newline is `max 20 length + 3` bytes plus the text of the count long,
hence at least 23 plus the number of digits of the count. The text of a positive count
is its base-10 digits, most significant first. -/
theorem C9_frequency_line :
    (∀ (cout : OStream) (name : Str) (count : Int),
      (frequencyEntry cout (name, count)).buf
          = cout.buf ++ (name ++ List.replicate (20 - name.length) 32 ++ bytes " : "
              ++ decimal count ++ [10])
        ∧ (20 ≤ name.length →
            (frequencyEntry cout (name, count)).buf
              = cout.buf ++ (name ++ bytes " : " ++ decimal count ++ [10]))
        ∧ (name ++ List.replicate (20 - name.length) 32 ++ bytes " : " ++ decimal count).length
            = max 20 name.length + 3 + (decimal count).length
        ∧ (decimal count).length = numDigits count.natAbs + (if count < 0 then 1 else 0)
        ∧ (0 < count →
            decimal count = (Nat.digits 10 count.toNat).reverse.map (fun d => 48 + d))
        ∧ 23 + numDigits count.natAbs
            ≤ (name ++ List.replicate (20 - name.length) 32 ++ bytes " : "
                ++ decimal count).length)
    ∧ (∀ (g : GroceryTracker) (cout : OStream),
        (g.displayFrequencies cout).buf
          = (putStr (bytes "-----------------\n")
              (putStr (bytes "\nItem Frequencies:\n") cout)).buf
            ++ (g.itemCount.map (fun e => frequencyLine e.1 e.2 ++ [10])).flatten) := by
  refine ⟨?_, displayFrequencies_buf⟩
  intro cout name count
  have hsep : bytes " : " = [32, 58, 32] := by decide
  have hbuf : (frequencyEntry cout (name, count)).buf
      = cout.buf ++ (name ++ List.replicate (20 - name.length) 32 ++ bytes " : "
          ++ decimal count ++ [10]) := by
    rw [frequencyEntry_eq]
    simp [frequencyLine, leftField]
  have hlen : (name ++ List.replicate (20 - name.length) 32 ++ bytes " : "
      ++ decimal count).length = max 20 name.length + 3 + (decimal count).length := by
    simp only [List.length_append, List.length_replicate, hsep, List.length_cons,
      List.length_nil]
    omega
  refine ⟨hbuf, ?_, hlen, decimal_length count, decimal_eq_digits count, ?_⟩
  · intro h20
    rw [hbuf]
    have : 20 - name.length = 0 := by omega
    simp [this]
  · rw [hlen, decimal_length]
    omega

/-- C9, witness: a name of 22 bytes is written in full, directly followed by " : " and
the count. -/
theorem C9_frequency_line_witness :
    20 ≤ (bytes "extra virgin olive oil").length
    ∧ (frequencyEntry OStream.fresh (bytes "extra virgin olive oil", 3)).buf
        = OStream.fresh.buf ++ (bytes "extra virgin olive oil" ++ bytes " : " ++ decimal 3
            ++ [10]) :=
  ⟨by decide,
    (C9_frequency_line.1 OStream.fresh (bytes "extra virgin olive oil") 3).2.1 (by decide)⟩

/-- C10. When the backup file opens, `backupData` writes the line "Grocery Tracker Backup
Data", a line of 28 dashes and then, per entry in iteration order, the same line as
`displayFrequencies` (the two loop bodies act alike on every stream and entry): one
line per key after the two header lines, which is also the number of newline bytes of
the file when no key holds a newline. Scenario D: for bread at 1 and milk at 2 the file
is the two header lines, the line of bread with 1 and the line of milk with 2. -/
theorem C10_backup_text :
    (∀ (g : GroceryTracker) (cout cout' : OStream),
      (g.backupData true cout).1
          = some (((bytes "Grocery Tracker Backup Data" :: List.replicate 28 45 ::
              g.itemCount.map (fun e => frequencyLine e.1 e.2)).map
                (fun l => l ++ [10])).flatten)
        ∧ (bytes "Grocery Tracker Backup Data" :: List.replicate 28 45 ::
              g.itemCount.map (fun e => frequencyLine e.1 e.2)).length
            = 2 + g.itemCount.keys.length
        ∧ (g.displayFrequencies cout').buf
            = (putStr (bytes "-----------------\n")
                (putStr (bytes "\nItem Frequencies:\n") cout')).buf
              ++ ((g.itemCount.map (fun e => frequencyLine e.1 e.2)).map
                (fun l => l ++ [10])).flatten
        ∧ (∀ (os : OStream) (e : Str × Int), backupEntry os e = frequencyEntry os e)
        ∧ ((∀ k ∈ g.itemCount.keys, 10 ∉ k) →
            ∀ file, (g.backupData true cout).1 = some file →
              file.count 10 = 2 + g.itemCount.keys.length))
    ∧ (backupData ⟨[(bytes "bread", 1), (bytes "milk", 2)], bytes "frequency.dat"⟩ true
          OStream.fresh).1
        = some (bytes "Grocery Tracker Backup Data\n" ++ bytes "----------------------------\n"
            ++ bytes "bread                : 1\n" ++ bytes "milk                 : 2\n") := by
  refine ⟨?_, by decide⟩
  intro g cout cout'
  have hh : bytes "Grocery Tracker Backup Data\n"
      = bytes "Grocery Tracker Backup Data" ++ [10] := by decide
  have hd : bytes "----------------------------\n" = List.replicate 28 45 ++ [10] := by decide
  have hfile := backupData_file g cout
  rw [hh, hd] at hfile
  refine ⟨?_, ?_, ?_, ?_, ?_⟩
  · rw [hfile]
    simp [List.map_map, Function.comp_def]
  · simp [Table.keys]
    omega
  · rw [displayFrequencies_buf]
    simp [List.map_map, Function.comp_def]
  · intro os e
    rw [backupEntry_eq, frequencyEntry_eq]
  · intro hk file hf
    rw [hfile] at hf
    injection hf with hf
    rw [← hf]
    simp only [List.count_append, count_newline_body _ hk]
    have h1 : (bytes "Grocery Tracker Backup Data").count 10 = 0 := by decide
    have h2 : (List.replicate 28 45 : Str).count 10 = 0 := by decide
    simp [h1, h2]

/-- C10, witness: the keys "bread" and "milk" hold no newline, and the backup file of
Scenario D has 2 + 2 newline bytes. -/
theorem C10_backup_text_witness :
    (∀ k ∈ Table.keys [(bytes "bread", 1), (bytes "milk", 2)], 10 ∉ k)
    ∧ ∀ file, (backupData ⟨[(bytes "bread", 1), (bytes "milk", 2)], bytes "frequency.dat"⟩
          true OStream.fresh).1 = some file →
        file.count 10 = 2 + (Table.keys [(bytes "bread", 1), (bytes "milk", 2)]).length :=
  ⟨by decide,
    (C10_backup_text.1 ⟨[(bytes "bread", 1), (bytes "milk", 2)], bytes "frequency.dat"⟩
      OStream.fresh OStream.fresh).2.2.2.2 (by decide)⟩

end GroceryTracker

namespace GroceryTracker

/-- C11. In a pass that reads option 4: if the confirmation read is 'y' or 'Y' (the
characters `tolower` sends to 'y'), the pass calls `backupData` once and nothing else,
prints the goodbye line and ends the loop, with the tracker unchanged; when the backup
file opens it then holds the text of `backupData`, and when it does not open the file is
left as it was, the error line is printed and the loop ends all the same. For every
other confirmation the pass prints the menu and the prompt and nothing else, makes no
call, leaves the tracker and the backup file as they were, and the loop goes on to its
next pass. -/
theorem C11_confirm_exit :
    (∀ (sinkOpens : Bool) (inp : MenuInput) (w : World) (rest : List MenuInput),
      inp.option = 4 → (inp.confirm = 121 ∨ inp.confirm = 89) →
        ∃ w', menuPass sinkOpens inp w = some (w', 4)
          ∧ runLoop sinkOpens (inp :: rest) w = RunResult.terminated w'
          ∧ w'.calls = w.calls ++ [Call.backupData]
          ∧ w'.tracker = w.tracker
          ∧ w'.cout = putStr (bytes "Exiting program. Goodbye!\n")
              (w.tracker.backupData sinkOpens
                (putStr (bytes "Are you sure you want to exit? (y/n): ") (printMenu w.cout))).2
          ∧ (sinkOpens = true →
              w'.backupFile = some (bytes "Grocery Tracker Backup Data\n"
                ++ bytes "----------------------------\n"
                ++ (w.tracker.itemCount.map (fun e => frequencyLine e.1 e.2 ++ [10])).flatten))
          ∧ (sinkOpens = false → w'.backupFile = w.backupFile
              ∧ (w.cout.width = 0 →
                  w'.cout.buf = w.cout.buf ++ menuText
                    ++ bytes "Are you sure you want to exit? (y/n): "
                    ++ bytes "Error: Could not create backup file " ++ w.tracker.backupFileName
                    ++ [10] ++ bytes "Exiting program. Goodbye!\n")))
    ∧ (∀ (sinkOpens : Bool) (inp : MenuInput) (w : World) (rest : List MenuInput),
        inp.option = 4 → inp.confirm ≠ 121 → inp.confirm ≠ 89 →
          menuPass sinkOpens inp w
              = some ({ w with
                  cout := putStr (bytes "Are you sure you want to exit? (y/n): ")
                    (printMenu w.cout) }, 0)
            ∧ runLoop sinkOpens (inp :: rest) w
                = runLoop sinkOpens rest { w with
                    cout := putStr (bytes "Are you sure you want to exit? (y/n): ")
                      (printMenu w.cout) }
            ∧ (w.cout.width = 0 →
                (putStr (bytes "Are you sure you want to exit? (y/n): ") (printMenu w.cout)).buf
                  = w.cout.buf ++ menuText ++ bytes "Are you sure you want to exit? (y/n): "))
    ∧ (∀ c : Nat, tolower c = 121 ↔ c = 121 ∨ c = 89) := by
  refine ⟨?_, ?_, tolower_eq_y⟩
  · intro sinkOpens inp w rest h4 hy
    have hp := (menuPass_four sinkOpens inp w h4).trans
      (congrArg some (confirmExit_yes sinkOpens inp.confirm w (printMenu w.cout) hy))
    refine ⟨_, hp, runLoop_cons_exit sinkOpens inp rest w _ hp, rfl, rfl, rfl, ?_, ?_⟩
    · intro hs
      subst hs
      simp only [backupData_file]
    · intro hs
      subst hs
      refine ⟨rfl, ?_⟩
      intro hw
      simp only
      rw [putStr_width_zero _ _ (backupData_width _ _ _),
        backupData_cout _ _ _ (putStr_width _ _),
        putStr_width_zero _ _ (printMenu_width _), printMenu_eq _ hw]
      simp
  · intro sinkOpens inp w rest h4 h1 h2
    have hp : menuPass sinkOpens inp w
        = some ({ w with
            cout := putStr (bytes "Are you sure you want to exit? (y/n): ")
              (printMenu w.cout) }, 0) := by
      rw [menuPass_four sinkOpens inp w h4, confirmExit_no sinkOpens _ w _ h1 h2]
    refine ⟨hp, runLoop_cons_continue sinkOpens inp rest w _ 0 hp (by decide), ?_⟩
    intro hw
    rw [putStr_width_zero _ _ (printMenu_width _), printMenu_eq _ hw]

/-- C11, witness: the confirmation 'Y' after option 4 ends the loop with one call of
`backupData`; the confirmation 'n' sends the loop on. -/
theorem C11_confirm_exit_witness :
    (⟨4, [], 89⟩ : MenuInput).option = 4
    ∧ ((⟨4, [], 89⟩ : MenuInput).confirm = 121 ∨ (⟨4, [], 89⟩ : MenuInput).confirm = 89)
    ∧ (∃ w', menuPass true ⟨4, [], 89⟩ ⟨new, OStream.fresh, none, []⟩ = some (w', 4)
        ∧ runLoop true [⟨4, [], 89⟩, ⟨2, [], 0⟩] ⟨new, OStream.fresh, none, []⟩
            = RunResult.terminated w'
        ∧ w'.calls = [] ++ [Call.backupData])
    ∧ (⟨4, [], 110⟩ : MenuInput).confirm ≠ 121 ∧ (⟨4, [], 110⟩ : MenuInput).confirm ≠ 89
    ∧ menuPass true ⟨4, [], 110⟩ ⟨new, OStream.fresh, none, []⟩
        = some ({ (⟨new, OStream.fresh, none, []⟩ : World) with
            cout := putStr (bytes "Are you sure you want to exit? (y/n): ")
              (printMenu OStream.fresh) }, 0) :=
  ⟨rfl, Or.inr rfl,
    (C11_confirm_exit.1 true ⟨4, [], 89⟩ ⟨new, OStream.fresh, none, []⟩ [⟨2, [], 0⟩] rfl
      (Or.inr rfl)).imp (fun _ h => ⟨h.1, h.2.1, h.2.2.1⟩),
    by decide, by decide,
    (C11_confirm_exit.2.1 true ⟨4, [], 110⟩ ⟨new, OStream.fresh, none, []⟩ [] rfl
      (by decide) (by decide)).1⟩

/-- C12. What a pass of the menu loop does with the `int` it reads: 1 calls
`lookupItemFrequency` on the line read, 2 calls `displayFrequencies`, 3 calls
`displayHistogram`, each once and nothing else, and the loop goes on; 4 runs the
confirmation block, which prints its prompt and then depends on the character read;
every other value of `int` (0, the negative ones, 5 and above, up to the bounds of
`int`) prints the menu and "Invalid option. Please try again." and nothing else, makes
no call, leaves tracker and backup file as they were, and the loop goes on to read its
next input. -/
theorem C12_menu_dispatch :
    (∀ (sinkOpens : Bool) (inp : MenuInput) (w : World) (rest : List MenuInput),
      inp.option = 1 →
        ∃ freq out, w.tracker.lookupItemFrequency inp.query (printMenu w.cout) = some (freq, out)
          ∧ menuPass sinkOpens inp w
              = some ({ w with cout := out, calls := w.calls ++ [Call.lookupItemFrequency] }, 1)
          ∧ runLoop sinkOpens (inp :: rest) w
              = runLoop sinkOpens rest
                  { w with cout := out, calls := w.calls ++ [Call.lookupItemFrequency] })
    ∧ (∀ (sinkOpens : Bool) (inp : MenuInput) (w : World) (rest : List MenuInput),
      inp.option = 2 →
        menuPass sinkOpens inp w
            = some ({ w with
                cout := w.tracker.displayFrequencies (printMenu w.cout)
                calls := w.calls ++ [Call.displayFrequencies] }, 2)
          ∧ runLoop sinkOpens (inp :: rest) w
              = runLoop sinkOpens rest { w with
                  cout := w.tracker.displayFrequencies (printMenu w.cout)
                  calls := w.calls ++ [Call.displayFrequencies] })
    ∧ (∀ (sinkOpens : Bool) (inp : MenuInput) (w : World) (rest : List MenuInput),
      inp.option = 3 →
        menuPass sinkOpens inp w
            = some ({ w with
                cout := w.tracker.displayHistogram (printMenu w.cout)
                calls := w.calls ++ [Call.displayHistogram] }, 3)
          ∧ runLoop sinkOpens (inp :: rest) w
              = runLoop sinkOpens rest { w with
                  cout := w.tracker.displayHistogram (printMenu w.cout)
                  calls := w.calls ++ [Call.displayHistogram] })
    ∧ (∀ (sinkOpens : Bool) (inp : MenuInput) (w : World),
      inp.option = 4 →
        menuPass sinkOpens inp w
            = some (confirmExit sinkOpens inp.confirm w (printMenu w.cout))
          ∧ ∃ more, (confirmExit sinkOpens inp.confirm w (printMenu w.cout)).1.cout.buf
              = (putStr (bytes "Are you sure you want to exit? (y/n): ")
                  (printMenu w.cout)).buf ++ more)
    ∧ (∀ (sinkOpens : Bool) (inp : MenuInput) (w : World) (rest : List MenuInput),
      fitsInt inp.option →
      inp.option ≠ 1 → inp.option ≠ 2 → inp.option ≠ 3 → inp.option ≠ 4 →
        menuPass sinkOpens inp w
            = some ({ w with
                cout := putStr (bytes "Invalid option. Please try again.\n")
                  (printMenu w.cout) }, inp.option)
          ∧ runLoop sinkOpens (inp :: rest) w
              = runLoop sinkOpens rest { w with
                  cout := putStr (bytes "Invalid option. Please try again.\n")
                    (printMenu w.cout) }
          ∧ callsOf inp = []
          ∧ (w.cout.width = 0 →
              (putStr (bytes "Invalid option. Please try again.\n") (printMenu w.cout)).buf
                = w.cout.buf ++ menuText ++ bytes "Invalid option. Please try again.\n"))
    ∧ (fitsInt 1 ∧ fitsInt 2 ∧ fitsInt 3 ∧ fitsInt 4 ∧ fitsInt 0 ∧ fitsInt (-1) ∧ fitsInt 5
        ∧ fitsInt INT_MIN ∧ fitsInt INT_MAX) := by
  refine ⟨?_, ?_, ?_, ?_, ?_, by decide⟩
  · intro sinkOpens inp w rest h1
    have hp := menuPass_lookup sinkOpens inp w h1
    exact ⟨_, _, lookupItemFrequency_eq _ _ _, hp,
      runLoop_cons_continue sinkOpens inp rest w _ 1 hp (by decide)⟩
  · intro sinkOpens inp w rest h2
    have hp := menuPass_list sinkOpens inp w h2
    exact ⟨hp, runLoop_cons_continue sinkOpens inp rest w _ 2 hp (by decide)⟩
  · intro sinkOpens inp w rest h3
    have hp := menuPass_histogram sinkOpens inp w h3
    exact ⟨hp, runLoop_cons_continue sinkOpens inp rest w _ 3 hp (by decide)⟩
  · intro sinkOpens inp w h4
    refine ⟨menuPass_four sinkOpens inp w h4, ?_⟩
    by_cases hy : inp.confirm = 121 ∨ inp.confirm = 89
    · rw [confirmExit_yes sinkOpens _ w _ hy]
      simp only
      rw [putStr_width_zero _ _ (backupData_width _ _ _),
        backupData_cout _ _ _ (putStr_width _ _)]
      exact ⟨_, by simp only [List.append_assoc]; rfl⟩
    · rw [confirmExit_no sinkOpens _ w _ (fun e => hy (Or.inl e)) (fun e => hy (Or.inr e))]
      exact ⟨[], by simp⟩
  · intro sinkOpens inp w rest _ h1 h2 h3 h4
    have hp := menuPass_invalid sinkOpens inp w h1 h2 h3 h4
    refine ⟨hp, runLoop_cons_continue sinkOpens inp rest w _ _ hp h4, ?_, ?_⟩
    · have hc : ¬ confirmsExit inp := fun h => h4 h.1
      simp [callsOf, h1, h2, h3, hc]
    · intro hw
      rw [putStr_width_zero _ _ (printMenu_width _), printMenu_eq _ hw]

set_option maxRecDepth 20000 in
/-- C12, witness: the options 0, -3 and 5 are values of `int` and none of 1, 2, 3, 4;
each prints the menu and the invalid-option line and the loop goes on. -/
theorem C12_menu_dispatch_witness :
    fitsInt (⟨-3, [], 0⟩ : MenuInput).option
    ∧ (⟨-3, [], 0⟩ : MenuInput).option ≠ 1 ∧ (⟨-3, [], 0⟩ : MenuInput).option ≠ 2
    ∧ (⟨-3, [], 0⟩ : MenuInput).option ≠ 3 ∧ (⟨-3, [], 0⟩ : MenuInput).option ≠ 4
    ∧ menuPass true ⟨-3, [], 0⟩ ⟨new, OStream.fresh, none, []⟩
        = some ({ (⟨new, OStream.fresh, none, []⟩ : World) with
            cout := putStr (bytes "Invalid option. Please try again.\n")
              (printMenu OStream.fresh) }, (⟨-3, [], 0⟩ : MenuInput).option)
    ∧ runLoop true [⟨0, [], 0⟩, ⟨5, [], 0⟩] ⟨new, OStream.fresh, none, []⟩
        = RunResult.awaitingInput ⟨new,
            ⟨menuText ++ bytes "Invalid option. Please try again.\n"
              ++ menuText ++ bytes "Invalid option. Please try again.\n" ++ menuText, 0, false⟩,
            none, []⟩ :=
  ⟨by decide, by decide, by decide, by decide, by decide,
    (C12_menu_dispatch.2.2.2.2.1 true ⟨-3, [], 0⟩ ⟨new, OStream.fresh, none, []⟩ []
      (by decide) (by decide) (by decide) (by decide) (by decide)).1,
    by decide⟩

end GroceryTracker

/-- C13. When the input file cannot be opened, `loadRecords` returns the tracker it was
given and prints "Error: Could not open " and the file name; a fresh tracker then has an
empty table, every lookup on it computes 0, and `displayFrequencies` and
`displayHistogram` write their two header lines and no entry line. `main` goes on to
`run` with that tracker: with no input yet it has printed the error line and the menu
and waits for an option, and its loop then behaves like any other run. -/
theorem C13_unopenable_source :
    (∀ (g : GroceryTracker) (fileName : Str) (cout : OStream),
      (g.loadRecords fileName none cout).1 = g
      ∧ (cout.width = 0 →
          (g.loadRecords fileName none cout).2.buf
            = cout.buf ++ bytes "Error: Could not open " ++ fileName ++ [10]))
    ∧ (∀ (fileName : Str) (cout : OStream),
        (GroceryTracker.new.loadRecords fileName none cout).1.itemCount = [])
    ∧ (∀ (fileName : Str) (cout : OStream) (q : Str) (cout' : OStream),
        ∃ out, (GroceryTracker.new.loadRecords fileName none cout).1.lookupItemFrequency q cout'
          = some (0, out))
    ∧ (∀ (fileName : Str) (cout cout' : OStream), cout'.width = 0 →
        ((GroceryTracker.new.loadRecords fileName none cout).1.displayFrequencies cout').buf
            = cout'.buf ++ bytes "\nItem Frequencies:\n" ++ bytes "-----------------\n"
        ∧ ((GroceryTracker.new.loadRecords fileName none cout).1.displayHistogram cout').buf
            = cout'.buf ++ bytes "\nFrequency Histogram:\n" ++ bytes "--------------------\n")
    ∧ (∀ (sinkOpens : Bool) (backupFile : Option Str) (cin : List MenuInput),
        main none sinkOpens backupFile cin
          = GroceryTracker.new.run sinkOpens cin
              ⟨bytes "Error: Could not open CS210_Project_Three_Input_File.txt\n", 0, false⟩
              backupFile)
    ∧ (∀ (sinkOpens : Bool) (backupFile : Option Str),
        main none sinkOpens backupFile []
          = RunResult.awaitingInput ⟨GroceryTracker.new,
              ⟨bytes "Error: Could not open CS210_Project_Three_Input_File.txt\n" ++ menuText,
                0, false⟩, backupFile, []⟩)
    ∧ (∀ (sinkOpens : Bool) (backupFile : Option Str) (cin : List MenuInput),
        ∃ w, (main none sinkOpens backupFile cin = RunResult.terminated w
            ∨ main none sinkOpens backupFile cin = RunResult.awaitingInput w)
          ∧ w.tracker.itemCount = []) := by
  have hmain : ∀ (sinkOpens : Bool) (backupFile : Option Str) (cin : List MenuInput),
      main none sinkOpens backupFile cin
        = GroceryTracker.new.run sinkOpens cin
            ⟨bytes "Error: Could not open CS210_Project_Three_Input_File.txt\n", 0, false⟩
            backupFile := by
    intro sinkOpens backupFile cin
    have : GroceryTracker.new.loadRecords (bytes "CS210_Project_Three_Input_File.txt") none
        OStream.fresh = (GroceryTracker.new,
          ⟨bytes "Error: Could not open CS210_Project_Three_Input_File.txt\n", 0, false⟩) := by
      decide
    simp only [main, this]
  refine ⟨?_, fun _ _ => rfl, ?_, ?_, hmain, ?_, ?_⟩
  · intro g fileName cout
    refine ⟨rfl, ?_⟩
    intro hw
    rw [GroceryTracker.loadRecords_none g fileName cout hw]
  · intro fileName cout q cout'
    exact ⟨_, GroceryTracker.lookupItemFrequency_eq _ _ _⟩
  · intro fileName cout cout' hw
    constructor
    · rw [GroceryTracker.displayFrequencies_buf, putStr_width_zero _ _ (putStr_width _ _),
        putStr_width_zero _ cout' hw]
      show _ ++ (([] : Table).map _).flatten = _
      simp
    · rw [GroceryTracker.displayHistogram_buf, putStr_width_zero _ _ (putStr_width _ _),
        putStr_width_zero _ cout' hw]
      show _ ++ (([] : Table).map _).flatten = _
      simp
  · intro sinkOpens backupFile
    rw [hmain]
    simp only [GroceryTracker.run, GroceryTracker.runLoop]
    rw [GroceryTracker.printMenu_eq _ rfl]
  · intro sinkOpens backupFile cin
    rw [hmain]
    obtain ⟨w, hr, ht⟩ := GroceryTracker.runLoop_tracker sinkOpens cin
      ⟨GroceryTracker.new,
        ⟨bytes "Error: Could not open CS210_Project_Three_Input_File.txt\n", 0, false⟩,
        backupFile, []⟩
    exact ⟨w, hr, by rw [ht]; rfl⟩

/-- C13, witness: Scenario E on a stream of width 0: the error line names the file. -/
theorem C13_unopenable_source_witness :
    OStream.fresh.width = 0
    ∧ (GroceryTracker.new.loadRecords (bytes "missing.txt") none OStream.fresh).2.buf
        = OStream.fresh.buf ++ bytes "Error: Could not open " ++ bytes "missing.txt" ++ [10] :=
  ⟨rfl, (C13_unopenable_source.1 GroceryTracker.new (bytes "missing.txt") OStream.fresh).2 rfl⟩

namespace GroceryTracker

/-- C14. On a stream whose width is 0, as `cout` is between insertions,
`displayFrequencies` appends a text that depends on the table only, so that a second
call right after the first appends the same bytes again. No pass of the menu loop,
whichever of lookup, listing, histogram and backup it runs, changes the tracker, and a
run of the loop ends or waits with the tracker it started with; `loadRecords` is the
one method that returns a tracker. -/
theorem C14_listing_idempotent :
    (∀ (g : GroceryTracker) (cout : OStream), cout.width = 0 →
      (g.displayFrequencies cout).buf
          = cout.buf ++ (bytes "\nItem Frequencies:\n" ++ bytes "-----------------\n"
            ++ (g.itemCount.map (fun e => frequencyLine e.1 e.2 ++ [10])).flatten)
      ∧ (g.displayFrequencies (g.displayFrequencies cout)).buf
          = (g.displayFrequencies cout).buf
            ++ (bytes "\nItem Frequencies:\n" ++ bytes "-----------------\n"
              ++ (g.itemCount.map (fun e => frequencyLine e.1 e.2 ++ [10])).flatten))
    ∧ (∀ (sinkOpens : Bool) (inp : MenuInput) (w : World),
        ∃ w' o, menuPass sinkOpens inp w = some (w', o)
          ∧ w'.tracker = w.tracker ∧ w'.cout.width = 0)
    ∧ (∀ (sinkOpens : Bool) (cin : List MenuInput) (w : World),
        ∃ w', (runLoop sinkOpens cin w = RunResult.terminated w'
            ∨ runLoop sinkOpens cin w = RunResult.awaitingInput w')
          ∧ w'.tracker = w.tracker)
    ∧ (∀ (sinkOpens : Bool) (q1 q2 : Str) (c1 c2 : Nat) (w : World), w.cout.width = 0 →
        ∃ w1 w2, menuPass sinkOpens ⟨2, q1, c1⟩ w = some (w1, 2)
          ∧ menuPass sinkOpens ⟨2, q2, c2⟩ w1 = some (w2, 2)
          ∧ w1.cout.buf = w.cout.buf ++ (menuText ++ (bytes "\nItem Frequencies:\n"
              ++ bytes "-----------------\n"
              ++ (w.tracker.itemCount.map (fun e => frequencyLine e.1 e.2 ++ [10])).flatten))
          ∧ w2.cout.buf = w1.cout.buf ++ (menuText ++ (bytes "\nItem Frequencies:\n"
              ++ bytes "-----------------\n"
              ++ (w.tracker.itemCount.map (fun e => frequencyLine e.1 e.2 ++ [10])).flatten))) := by
  have hlist : ∀ (g : GroceryTracker) (cout : OStream), cout.width = 0 →
      (g.displayFrequencies cout).buf
        = cout.buf ++ (bytes "\nItem Frequencies:\n" ++ bytes "-----------------\n"
          ++ (g.itemCount.map (fun e => frequencyLine e.1 e.2 ++ [10])).flatten) := by
    intro g cout hw
    rw [displayFrequencies_buf, putStr_width_zero _ _ (putStr_width _ _),
      putStr_width_zero _ cout hw]
    simp
  refine ⟨?_, ?_, runLoop_tracker, ?_⟩
  · intro g cout hw
    exact ⟨hlist g cout hw, hlist g _ (displayFrequencies_width g cout)⟩
  · intro sinkOpens inp w
    obtain ⟨w', o, hp, ht, _, hw, _, _⟩ := menuPass_spec sinkOpens inp w
    exact ⟨w', o, hp, ht, hw⟩
  · intro sinkOpens q1 q2 c1 c2 w hw
    refine ⟨_, _, menuPass_list sinkOpens ⟨2, q1, c1⟩ w rfl,
      menuPass_list sinkOpens ⟨2, q2, c2⟩ _ rfl, ?_, ?_⟩
    · simp only
      rw [hlist _ _ (printMenu_width _), printMenu_eq _ hw]
      simp
    · simp only
      rw [hlist _ _ (printMenu_width _), printMenu_eq _ (displayFrequencies_width _ _)]
      simp

/-- C14, witness: listing the table of Scenario A twice on a fresh stream. -/
theorem C14_listing_idempotent_witness :
    OStream.fresh.width = 0
    ∧ (displayFrequencies ⟨[(bytes "bread", 1), (bytes "milk", 2)], bytes "frequency.dat"⟩
          (displayFrequencies ⟨[(bytes "bread", 1), (bytes "milk", 2)], bytes "frequency.dat"⟩
            OStream.fresh)).buf
        = (displayFrequencies ⟨[(bytes "bread", 1), (bytes "milk", 2)], bytes "frequency.dat"⟩
            OStream.fresh).buf
          ++ (bytes "\nItem Frequencies:\n" ++ bytes "-----------------\n"
            ++ (([(bytes "bread", 1), (bytes "milk", 2)] : Table).map
                (fun e => frequencyLine e.1 e.2 ++ [10])).flatten) :=
  ⟨rfl,
    (C14_listing_idempotent.1 ⟨[(bytes "bread", 1), (bytes "milk", 2)], bytes "frequency.dat"⟩
      OStream.fresh rfl).2⟩

/-- C15. One pass of the reading loop over a non-empty line, on a well-formed table:
the lower-cased line gets the count 1 if it was missing and its old count plus 1
otherwise (for an old count below `INT_MAX`), every other key keeps what it had, and
the table stays well formed; a pass over an empty line leaves the table as it is; the
loop is the succession of these passes. Consequently, from a fresh tracker, the count
of a key after a list of lines is at most its count after any extension of the list
(as long as the key's occurrences fit an `int`). -/
theorem C15_per_line_step :
    (∀ (t : Table) (line : Str), t.WF → line ≠ [] →
      (mapAt t (toLower line) = none → mapAt (readLoop [line] t) (toLower line) = some 1)
      ∧ (∀ v, mapAt t (toLower line) = some v → INT_MIN ≤ v → v < INT_MAX →
          mapAt (readLoop [line] t) (toLower line) = some (v + 1))
      ∧ (∀ k, k ≠ toLower line → mapAt (readLoop [line] t) k = mapAt t k)
      ∧ (readLoop [line] t).WF)
    ∧ (∀ (t : Table), readLoop [[]] t = t)
    ∧ (∀ (line : Str) (rest : List Str) (t : Table),
        readLoop (line :: rest) t = readLoop rest (readLoop [line] t))
    ∧ (∀ (fileName : Str) (cout : OStream) (lines ext : List Str) (k : Str),
        (occurrences k (lines ++ ext) : Int) ≤ INT_MAX →
          countOf (new.loadRecords fileName (some lines) cout).1.itemCount k
            ≤ countOf (new.loadRecords fileName (some (lines ++ ext)) cout).1.itemCount k) := by
  refine ⟨?_, ?_, ?_, ?_⟩
  · intro t line hwf hl
    rw [readLoop_single line t hl]
    refine ⟨?_, ?_, ?_, wf_bump hwf _⟩
    · intro hnone
      rw [mapAt_bump hwf, hnone]
      simp [wrapInt]
    · intro v hv hmin hmax
      rw [mapAt_bump hwf, hv]
      have : wrapInt (v + 1) = v + 1 :=
        wrapInt_of_range (by unfold INT_MIN at hmin; omega) (by omega)
      simp [this]
    · intro k hk
      rw [mapAt_bump hwf]
      simp [hk]
  · intro t
    simp [readLoop]
  · intro line rest t
    exact readLoop_append [line] rest t
  · intro fileName cout lines ext k hmax
    show countOf (readLoop lines []) k ≤ countOf (readLoop (lines ++ ext) []) k
    have hle : (occurrences k lines : Int) ≤ INT_MAX := by
      rw [occurrences_append] at hmax
      push_cast at hmax
      omega
    rw [countOf_load_fresh _ _ hle, countOf_load_fresh _ _ hmax, occurrences_append]
    push_cast
    omega

/-- C15, witness: in the table with bread at 1 and milk at 2, a pass over the line
"Milk" sets milk to 3; and "milk" has no smaller count after the four lines of Scenario A
than after the first of them. -/
theorem C15_per_line_step_witness :
    Table.WF [(bytes "bread", 1), (bytes "milk", 2)] ∧ bytes "Milk" ≠ []
    ∧ mapAt [(bytes "bread", 1), (bytes "milk", 2)] (toLower (bytes "Milk")) = some 2
    ∧ INT_MIN ≤ 2 ∧ (2 : Int) < INT_MAX
    ∧ mapAt (readLoop [bytes "Milk"] [(bytes "bread", 1), (bytes "milk", 2)])
        (toLower (bytes "Milk")) = some (2 + 1)
    ∧ (occurrences (bytes "milk") ([bytes "Milk"] ++ [bytes "milk", bytes "Bread", bytes ""])
        : Int) ≤ INT_MAX
    ∧ countOf (new.loadRecords [] (some [bytes "Milk"]) OStream.fresh).1.itemCount
          (bytes "milk")
        ≤ countOf (new.loadRecords [] (some ([bytes "Milk"]
            ++ [bytes "milk", bytes "Bread", bytes ""])) OStream.fresh).1.itemCount
          (bytes "milk") :=
  ⟨by decide, by decide, by decide, by decide, by decide,
    (C15_per_line_step.1 [(bytes "bread", 1), (bytes "milk", 2)] (bytes "Milk")
      (by decide) (by decide)).2.1 2 (by decide) (by decide) (by decide),
    by decide,
    C15_per_line_step.2.2.2 [] OStream.fresh [bytes "Milk"]
      [bytes "milk", bytes "Bread", bytes ""] (bytes "milk") (by decide)⟩

/-- C16. A run of `run` over any input whose options are values of `int`: a pass that is
not a confirmed exit (option 1, 2, 3, an invalid option, or option 4 with a confirmation
other than 'y' and 'Y') does not end the loop, calls no `backupData` and is followed by
another pass; over an input without a confirmed exit the loop uses all of it, waits for
more and has made no call of `backupData`; over an input with a confirmed exit the loop
ends at the first one, reading nothing after it, and `backupData` is called exactly
once, as the last call of the run. So the loop ends for exactly the inputs that hold a
confirmed exit. -/
theorem C16_ends_only_on_confirmed_exit :
    (∀ (sinkOpens : Bool) (inp : MenuInput) (rest : List MenuInput) (w : World),
      fitsInt inp.option → ¬ confirmsExit inp →
        ∃ w' o, menuPass sinkOpens inp w = some (w', o) ∧ o ≠ 4
          ∧ runLoop sinkOpens (inp :: rest) w = runLoop sinkOpens rest w'
          ∧ w'.calls = w.calls ++ callsOf inp
          ∧ Call.backupData ∉ callsOf inp)
    ∧ (∀ (g : GroceryTracker) (sinkOpens : Bool) (cin : List MenuInput) (cout : OStream)
        (backupFile : Option Str),
        (∀ x ∈ cin, fitsInt x.option) → (∀ x ∈ cin, ¬ confirmsExit x) →
          ∃ w, g.run sinkOpens cin cout backupFile = RunResult.awaitingInput w
            ∧ w.calls = cin.flatMap callsOf
            ∧ Call.backupData ∉ w.calls
            ∧ w.backupFile = backupFile)
    ∧ (∀ (g : GroceryTracker) (sinkOpens : Bool) (pre : List MenuInput) (inp : MenuInput)
        (post : List MenuInput) (cout : OStream) (backupFile : Option Str),
        (∀ x ∈ pre, fitsInt x.option) → (∀ x ∈ pre, ¬ confirmsExit x) → confirmsExit inp →
          ∃ w, g.run sinkOpens (pre ++ inp :: post) cout backupFile = RunResult.terminated w
            ∧ g.run sinkOpens (pre ++ [inp]) cout backupFile = RunResult.terminated w
            ∧ (∃ w0, g.run sinkOpens pre cout backupFile = RunResult.awaitingInput w0)
            ∧ w.calls = pre.flatMap callsOf ++ [Call.backupData]
            ∧ Call.backupData ∉ pre.flatMap callsOf
            ∧ w.calls.count Call.backupData = 1
            ∧ w.calls.getLast? = some Call.backupData)
    ∧ (∀ (g : GroceryTracker) (sinkOpens : Bool) (cin : List MenuInput) (cout : OStream)
        (backupFile : Option Str), (∀ x ∈ cin, fitsInt x.option) →
        ((∃ w, g.run sinkOpens cin cout backupFile = RunResult.terminated w)
          ↔ ∃ x ∈ cin, confirmsExit x))
    ∧ (∀ inp : MenuInput,
        (confirmsExit inp ↔ inp.option = 4 ∧ tolower inp.confirm = 121)
        ∧ (confirmsExit inp → fitsInt inp.option)) := by
  refine ⟨?_, ?_, ?_, ?_, ?_⟩
  · intro sinkOpens inp rest w _ hne
    obtain ⟨w1, o, hp, _, hc, _, ho, _⟩ := menuPass_spec sinkOpens inp w
    have ho4 : o ≠ 4 := fun e => hne (ho.1 e)
    refine ⟨w1, o, hp, ho4, runLoop_cons_continue sinkOpens inp rest w w1 o hp ho4, hc, ?_⟩
    have := backupData_not_mem_calls [inp] (by simpa using hne)
    simpa using this
  · intro g sinkOpens cin cout backupFile _ h
    obtain ⟨w, hr, _, hc, hb⟩ := runLoop_no_exit sinkOpens cin ⟨g, cout, backupFile, []⟩ h
    have hc' : w.calls = cin.flatMap callsOf := by simpa using hc
    refine ⟨w, hr, hc', ?_, hb⟩
    rw [hc']
    exact backupData_not_mem_calls cin h
  · intro g sinkOpens pre inp post cout backupFile _ hpre hinp
    obtain ⟨w, hr1, hr2, _, hc⟩ :=
      runLoop_exit sinkOpens pre inp post ⟨g, cout, backupFile, []⟩ hpre hinp
    obtain ⟨w0, hr0, _⟩ := runLoop_no_exit sinkOpens pre ⟨g, cout, backupFile, []⟩ hpre
    have hc' : w.calls = pre.flatMap callsOf ++ [Call.backupData] := by simpa using hc
    have hnot := backupData_not_mem_calls pre hpre
    refine ⟨w, hr1, hr2, ⟨w0, hr0⟩, hc', hnot, ?_, ?_⟩
    · rw [hc', List.count_append, List.count_eq_zero.2 hnot]
      rfl
    · rw [hc']
      simp
  · intro g sinkOpens cin cout backupFile _
    constructor
    · rintro ⟨w, hw⟩
      by_contra hno
      have hall : ∀ x ∈ cin, ¬ confirmsExit x := fun x hx hc => hno ⟨x, hx, hc⟩
      obtain ⟨w', hr, _⟩ := runLoop_no_exit sinkOpens cin ⟨g, cout, backupFile, []⟩ hall
      have : RunResult.terminated w = RunResult.awaitingInput w' := hw.symm.trans hr
      cases this
    · intro h
      obtain ⟨pre, inp, post, he, hpre, hinp⟩ := exists_first_confirmed cin h
      obtain ⟨w, hr, _⟩ :=
        runLoop_exit sinkOpens pre inp post ⟨g, cout, backupFile, []⟩ hpre hinp
      exact ⟨w, by rw [he]; exact hr⟩
  · intro inp
    refine ⟨?_, ?_⟩
    · unfold confirmsExit
      rw [tolower_eq_y]
    · intro h
      have h4 := h.1
      unfold fitsInt INT_MIN INT_MAX
      omega

/-- C16, witness: a listing, an invalid option, a cancelled exit, a lookup and then a
confirmed exit, all options being values of `int`; the histogram asked for after the
exit is never run. -/
theorem C16_ends_only_on_confirmed_exit_witness :
    (∀ x ∈ [(⟨2, [], 0⟩ : MenuInput), ⟨7, [], 0⟩, ⟨4, [], 110⟩, ⟨1, bytes "MILK", 0⟩],
        fitsInt x.option)
    ∧ (∀ x ∈ [(⟨2, [], 0⟩ : MenuInput), ⟨7, [], 0⟩, ⟨4, [], 110⟩, ⟨1, bytes "MILK", 0⟩],
        ¬ confirmsExit x)
    ∧ confirmsExit ⟨4, [], 89⟩
    ∧ ∃ w, new.run true ([(⟨2, [], 0⟩ : MenuInput), ⟨7, [], 0⟩, ⟨4, [], 110⟩,
          ⟨1, bytes "MILK", 0⟩] ++ ⟨4, [], 89⟩ :: [⟨3, [], 0⟩]) OStream.fresh none
        = RunResult.terminated w
      ∧ w.calls = [Call.displayFrequencies, Call.lookupItemFrequency, Call.backupData] :=
  have hfit : ∀ x ∈ [(⟨2, [], 0⟩ : MenuInput), ⟨7, [], 0⟩, ⟨4, [], 110⟩,
      ⟨1, bytes "MILK", 0⟩], fitsInt x.option := by decide
  have hpre : ∀ x ∈ [(⟨2, [], 0⟩ : MenuInput), ⟨7, [], 0⟩, ⟨4, [], 110⟩,
      ⟨1, bytes "MILK", 0⟩], ¬ confirmsExit x := by decide
  have hinp : confirmsExit ⟨4, [], 89⟩ := by decide
  ⟨hfit, hpre, hinp,
    (C16_ends_only_on_confirmed_exit.2.2.1 new true _ ⟨4, [], 89⟩ [⟨3, [], 0⟩] OStream.fresh
      none hfit hpre hinp).imp (fun _ h => ⟨h.1, h.2.2.2.1⟩)⟩

/-- C17. After `loadRecords` on a fresh tracker, when the occurrences of every key fit
an `int`: the stored counts sum to the number of non-empty lines of the file; so do the
lengths of the runs of asterisks that `displayHistogram` writes, one run of `count`
asterisks per entry; and the asterisk bytes that `displayHistogram` appends to `cout`
are that many plus those that occur inside the names. -/
theorem C17_counts_conserved (fileName : Str) (cout : OStream) (lines : List Str)
    (h : ∀ k, (occurrences k lines : Int) ≤ INT_MAX) :
    sumCounts (new.loadRecords fileName (some lines) cout).1.itemCount = nonEmptyLines lines
    ∧ (((new.loadRecords fileName (some lines) cout).1.itemCount.map
          (fun e => (List.replicate e.2.toNat 42).length)).sum = nonEmptyLines lines)
    ∧ (∀ cout' : OStream,
        ((new.loadRecords fileName (some lines) cout).1.displayHistogram cout').buf
          = (putStr (bytes "--------------------\n")
              (putStr (bytes "\nFrequency Histogram:\n") cout')).buf
            ++ ((new.loadRecords fileName (some lines) cout).1.itemCount.map
                (fun e => leftField e.1 ++ bytes " " ++ List.replicate e.2.toNat 42
                  ++ bytes " (" ++ decimal e.2 ++ bytes ")" ++ [10])).flatten)
    ∧ (∀ cout' : OStream, cout'.width = 0 →
        ((new.loadRecords fileName (some lines) cout).1.displayHistogram cout').buf.count 42
          = cout'.buf.count 42
            + ((new.loadRecords fileName (some lines) cout).1.itemCount.keys.map
                (fun k => k.count 42)).sum
            + nonEmptyLines lines) := by
  have hsum : sumCounts (readLoop lines []) = nonEmptyLines lines := by
    have := sumCounts_readLoop lines [] wf_nil (fun k => by
      have h0 : countOf [] k = 0 := rfl
      rw [h0]
      exact ⟨le_refl _, by simpa using h k⟩)
    simpa [sumCounts] using this
  have hnn : ∀ e ∈ readLoop lines [], 0 ≤ e.2 := by
    intro e he
    have hat := mapAt_of_mem (wf_readLoop lines [] wf_nil) (k := e.1) (v := e.2) he
    rw [mapAt_load_fresh] at hat
    by_cases h0 : occurrences e.1 lines = 0
    · simp [h0] at hat
    · have hw : wrapInt (occurrences e.1 lines) = occurrences e.1 lines :=
        wrapInt_of_range (by omega) (h e.1)
      simp only [h0, if_false, hw, Option.some.injEq] at hat
      omega
  have hstars : ((readLoop lines []).map (fun e => e.2.toNat)).sum = nonEmptyLines lines := by
    have := sum_toNat_eq _ hnn
    rw [hsum] at this
    exact_mod_cast this
  refine ⟨hsum, ?_, ?_, ?_⟩
  · simpa using hstars
  · intro cout'
    rw [displayHistogram_buf]
    rfl
  · intro cout' hw
    rw [displayHistogram_buf, List.count_append]
    show _ + ((readLoop lines []).map (fun e => histogramLine e.1 e.2 ++ [10])).flatten.count 42
      = _ + ((readLoop lines []).keys.map (fun k => k.count 42)).sum + _
    rw [count_star_histogram_body, hstars]
    have hh : (putStr (bytes "--------------------\n")
        (putStr (bytes "\nFrequency Histogram:\n") cout')).buf.count 42
          = cout'.buf.count 42 := by
      rw [putStr_width_zero _ cout' hw, putStr_width_zero _ _ (by simpa using hw)]
      have h1 : (bytes "\nFrequency Histogram:\n").count 42 = 0 := by decide
      have h2 : (bytes "--------------------\n").count 42 = 0 := by decide
      simp [List.count_append, h1, h2]
    rw [hh]
    omega

/-- C17, witness: Scenario A has three non-empty lines; its counts 1 and 2 sum to 3. -/
theorem C17_counts_conserved_witness :
    (∀ k, (occurrences k [bytes "Milk", bytes "milk", bytes "Bread", bytes ""] : Int)
        ≤ INT_MAX)
    ∧ sumCounts (new.loadRecords [] (some [bytes "Milk", bytes "milk", bytes "Bread", bytes ""])
          OStream.fresh).1.itemCount
        = nonEmptyLines [bytes "Milk", bytes "milk", bytes "Bread", bytes ""]
    ∧ nonEmptyLines [bytes "Milk", bytes "milk", bytes "Bread", bytes ""] = 3 :=
  have hb : ∀ k, (occurrences k [bytes "Milk", bytes "milk", bytes "Bread", bytes ""] : Int)
      ≤ INT_MAX := by
    intro k
    have := occurrences_le_length k [bytes "Milk", bytes "milk", bytes "Bread", bytes ""]
    simp only [List.length_cons, List.length_nil] at this
    unfold INT_MAX
    omega
  ⟨hb,
    (C17_counts_conserved [] OStream.fresh
      [bytes "Milk", bytes "milk", bytes "Bread", bytes ""] hb).1,
    by decide⟩

/-- C18. Two files whose lines are permutations of each other leave a fresh tracker in
the same state, so that every lookup computes the same count and `displayFrequencies`,
`displayHistogram` and `backupData` write the same bytes. -/
theorem C18_order_independent (fileName : Str) (cout : OStream) (l1 l2 : List Str)
    (h : l1.Perm l2) :
    (new.loadRecords fileName (some l1) cout).1.itemCount
        = (new.loadRecords fileName (some l2) cout).1.itemCount
    ∧ (new.loadRecords fileName (some l1) cout).1 = (new.loadRecords fileName (some l2) cout).1
    ∧ (∀ (q : Str) (cout' : OStream),
        (new.loadRecords fileName (some l1) cout).1.lookupItemFrequency q cout'
          = (new.loadRecords fileName (some l2) cout).1.lookupItemFrequency q cout')
    ∧ (∀ cout' : OStream,
        (new.loadRecords fileName (some l1) cout).1.displayFrequencies cout'
          = (new.loadRecords fileName (some l2) cout).1.displayFrequencies cout')
    ∧ (∀ cout' : OStream,
        (new.loadRecords fileName (some l1) cout).1.displayHistogram cout'
          = (new.loadRecords fileName (some l2) cout).1.displayHistogram cout')
    ∧ (∀ (opens : Bool) (cout' : OStream),
        (new.loadRecords fileName (some l1) cout).1.backupData opens cout'
          = (new.loadRecords fileName (some l2) cout).1.backupData opens cout') := by
  have ht : readLoop l1 [] = readLoop l2 [] := readLoop_perm h
  have hg : (new.loadRecords fileName (some l1) cout).1
      = (new.loadRecords fileName (some l2) cout).1 := by
    show ({ new with itemCount := readLoop l1 new.itemCount } : GroceryTracker)
      = { new with itemCount := readLoop l2 new.itemCount }
    have : new.itemCount = [] := rfl
    rw [this, ht]
  refine ⟨congrArg GroceryTracker.itemCount hg, hg, ?_, ?_, ?_, ?_⟩
  · intro q cout'; rw [hg]
  · intro cout'; rw [hg]
  · intro cout'; rw [hg]
  · intro opens cout'; rw [hg]

/-- C18, witness: the lines of Scenario A read backwards give the same table. -/
theorem C18_order_independent_witness :
    List.Perm [bytes "Milk", bytes "milk", bytes "Bread", bytes ""]
      [bytes "", bytes "Bread", bytes "milk", bytes "Milk"]
    ∧ (new.loadRecords [] (some [bytes "Milk", bytes "milk", bytes "Bread", bytes ""])
          OStream.fresh).1.itemCount
        = (new.loadRecords [] (some [bytes "", bytes "Bread", bytes "milk", bytes "Milk"])
          OStream.fresh).1.itemCount :=
  have hp : List.Perm [bytes "Milk", bytes "milk", bytes "Bread", bytes ""]
      [bytes "", bytes "Bread", bytes "milk", bytes "Milk"] :=
    List.reverse_perm [bytes "", bytes "Bread", bytes "milk", bytes "Milk"]
  ⟨hp, (C18_order_independent [] OStream.fresh _ _ hp).1⟩

/-- C19. Loading a file of lines `a` and then a file of lines `b` into one tracker, fresh
or not, gives the table that loading one file of lines `a ++ b` gives: the second load
starts from the counts of the first. Every key of the first load is still a key, and a
key's count after both loads is its count after the first plus its occurrences in `b`
(as long as that fits an `int`). -/
theorem C19_loads_accumulate :
    (∀ (a b : List Str) (f1 f2 f3 : Str) (c1 c2 c3 : OStream),
      ((new.loadRecords f1 (some a) c1).1.loadRecords f2 (some b) c2).1.itemCount
        = (new.loadRecords f3 (some (a ++ b)) c3).1.itemCount)
    ∧ (∀ (g : GroceryTracker) (a b : List Str) (f1 f2 f3 : Str) (c1 c2 c3 : OStream),
      ((g.loadRecords f1 (some a) c1).1.loadRecords f2 (some b) c2).1
        = (g.loadRecords f3 (some (a ++ b)) c3).1)
    ∧ (∀ (a b : List Str) (f1 f2 : Str) (c1 c2 : OStream) (k : Str),
        k ∈ (new.loadRecords f1 (some a) c1).1.itemCount.keys →
          k ∈ ((new.loadRecords f1 (some a) c1).1.loadRecords f2 (some b) c2).1.itemCount.keys)
    ∧ (∀ (a b : List Str) (f1 f2 : Str) (c1 c2 : OStream) (k : Str),
        (occurrences k (a ++ b) : Int) ≤ INT_MAX →
          countOf ((new.loadRecords f1 (some a) c1).1.loadRecords f2 (some b) c2).1.itemCount k
            = countOf (new.loadRecords f1 (some a) c1).1.itemCount k + occurrences k b) := by
  have hgen : ∀ (g : GroceryTracker) (a b : List Str) (f1 f2 f3 : Str) (c1 c2 c3 : OStream),
      ((g.loadRecords f1 (some a) c1).1.loadRecords f2 (some b) c2).1
        = (g.loadRecords f3 (some (a ++ b)) c3).1 := by
    intro g a b f1 f2 f3 c1 c2 c3
    show ({ ({ g with itemCount := readLoop a g.itemCount } : GroceryTracker) with
        itemCount := readLoop b (readLoop a g.itemCount) } : GroceryTracker)
      = { g with itemCount := readLoop (a ++ b) g.itemCount }
    rw [readLoop_append]
  have hocc : ∀ (a b : List Str) (k : Str), mapAt (readLoop b (readLoop a [])) k
      = if occurrences k (a ++ b) = 0 then none
        else some (wrapInt (occurrences k (a ++ b))) := by
    intro a b k
    rw [← readLoop_append, mapAt_load_fresh]
  refine ⟨?_, hgen, ?_, ?_⟩
  · intro a b f1 f2 f3 c1 c2 c3
    exact congrArg GroceryTracker.itemCount (hgen new a b f1 f2 f3 c1 c2 c3)
  · intro a b f1 f2 c1 c2 k hk
    by_contra hnot
    have h1 : mapAt (readLoop b (readLoop a [])) k = none := (mapAt_eq_none_iff _ _).2 hnot
    have h2 : ¬ mapAt (readLoop a []) k = none := fun e => (mapAt_eq_none_iff _ _).1 e hk
    rw [hocc] at h1
    rw [mapAt_load_fresh] at h2
    rw [occurrences_append] at h1
    by_cases h0 : occurrences k a = 0
    · simp [h0] at h2
    · have : ¬ (occurrences k a + occurrences k b = 0) := by omega
      simp [this] at h1
  · intro a b f1 f2 c1 c2 k hmax
    show countOf (readLoop b (readLoop a [])) k = countOf (readLoop a []) k + occurrences k b
    have hle : (occurrences k a : Int) ≤ INT_MAX := by
      rw [occurrences_append] at hmax
      push_cast at hmax
      omega
    rw [← readLoop_append, countOf_load_fresh _ _ hle, countOf_load_fresh _ _ hmax,
      occurrences_append]
    push_cast
    rfl

/-- C19, witness: "milk" is a key after the first load and occurs twice over both
loads; after the second load its count is 1 + 1. -/
theorem C19_loads_accumulate_witness :
    bytes "milk" ∈ (new.loadRecords [] (some [bytes "Milk", bytes "Bread"])
        OStream.fresh).1.itemCount.keys
    ∧ bytes "milk" ∈ ((new.loadRecords [] (some [bytes "Milk", bytes "Bread"])
        OStream.fresh).1.loadRecords [] (some [bytes "milk", bytes ""])
          OStream.fresh).1.itemCount.keys
    ∧ (occurrences (bytes "milk") ([bytes "Milk", bytes "Bread"] ++ [bytes "milk", bytes ""])
        : Int) ≤ INT_MAX
    ∧ countOf ((new.loadRecords [] (some [bytes "Milk", bytes "Bread"])
        OStream.fresh).1.loadRecords [] (some [bytes "milk", bytes ""])
          OStream.fresh).1.itemCount (bytes "milk")
        = countOf (new.loadRecords [] (some [bytes "Milk", bytes "Bread"])
            OStream.fresh).1.itemCount (bytes "milk")
          + occurrences (bytes "milk") [bytes "milk", bytes ""] :=
  ⟨by decide,
    C19_loads_accumulate.2.2.1 [bytes "Milk", bytes "Bread"] [bytes "milk", bytes ""] [] []
      OStream.fresh OStream.fresh (bytes "milk") (by decide),
    by decide,
    C19_loads_accumulate.2.2.2 [bytes "Milk", bytes "Bread"] [bytes "milk", bytes ""] [] []
      OStream.fresh OStream.fresh (bytes "milk") (by decide)⟩

end GroceryTracker

end Grocery
